import Mathlib

/-!
Shallow embedding of the competitive-balance engine implemented in
`src/6_compet.py`, together with theorems settling the specification
claims about it.

Conventions of the embedding:
* floating point arithmetic on probabilities, strengths and variances is
  modelled over `ℚ` (and over `ℝ` where the source applies the exponential
  function);
* pandas data frames become lists of records;
* the stable sorts of the source (`sorted` with `reverse=True` on the
  standings) become stable insertion sorts, which produce the same list:
  descending order with ties kept in original relative order;
* random draws (`np.random.random`, `np.random.choice`) become finite
  probability mass functions, lists pairing each outcome with its mass.
-/

namespace Compet

/-- One row of the validated match table used by the analyzer: championship
id, round number (`rodada`), home and away team names, and the two
non-negative integer goal counts. -/
structure Game where
  id : String
  rodada : Nat
  home : String
  away : String
  goal_home : Nat
  goal_away : Nat
deriving DecidableEq, Repr

/-- League points earned by a side scoring `a` goals against `b` goals:
3 for a win, 1 for a draw, 0 for a loss. -/
def winPoints (a b : Nat) : Nat :=
  if a > b then 3 else if a = b then 1 else 0

/-- Points the named team collects from one game, following
`PositionDefinitionCalculator._calculate_points_progression`: the home side
is credited when `home == team`, the away side when `away == team`. -/
def gamePoints (team : String) (g : Game) : Nat :=
  (if g.home = team then winPoints g.goal_home g.goal_away else 0) +
  (if g.away = team then winPoints g.goal_away g.goal_home else 0)

/-- Points the named team collects in round `r` (sum over the games of the
round, as in the source loop over `round_games`). -/
def roundPoints (games : List Game) (team : String) (r : Nat) : Nat :=
  ((games.filter (fun g => g.rodada = r)).map (gamePoints team)).sum

/-- Cumulative points of a team after round `r`
(`points_progression[team][r]` in the source; entry 0 is the initial 0). -/
def pointsAtRound (games : List Game) (team : String) : Nat → Nat
  | 0 => 0
  | r + 1 => pointsAtRound games team r + roundPoints games team (r + 1)

/-- Insertion step of a stable descending sort on the points component:
the new entry is placed before the first entry whose points do not exceed
its own, so equal-points entries keep their original relative order. -/
def insertStanding (x : String × Nat) : List (String × Nat) → List (String × Nat)
  | [] => [x]
  | y :: ys => if x.2 < y.2 then y :: insertStanding x ys else x :: y :: ys

/-- Stable descending sort by points, modelling
`sorted(team_points.items(), key=lambda x: x[1], reverse=True)` of the
source (Python sorts are stable). -/
def sortStandings (l : List (String × Nat)) : List (String × Nat) :=
  l.foldr insertStanding []

/-- Embeds `PositionDefinitionCalculator._get_standings_at_round`: the table of
(team, cumulative points) pairs at round `r`, sorted by points descending,
empty outside rounds `1..totalRounds`. -/
def getStandingsAtRound (games : List Game) (teams : List String)
    (totalRounds r : Nat) : List (String × Nat) :=
  if r < 1 ∨ totalRounds < r then []
  else sortStandings (teams.map (fun t => (t, pointsAtRound games t r)))

/-- Embeds `PositionDefinitionCalculator._is_position_defined`: slot `position` is
locked at round `r` when the final round is reached, or when no team below
the slot can strictly exceed the occupant even winning all remaining
matches, and the occupant cannot strictly exceed any team above. -/
def isPositionDefined (games : List Game) (teams : List String)
    (totalRounds position r : Nat) : Bool :=
  if totalRounds ≤ r then true
  else
    let standings := getStandingsAtRound games teams totalRounds r
    if standings.length < position then false
    else
      let current := standings.getD (position - 1) ("", 0)
      let maxPossible := (totalRounds - r) * 3
      ((standings.drop position).all
        (fun p => !(decide (p.2 + maxPossible > current.2)))) &&
      ((standings.take (position - 1)).all
        (fun p => !(decide (current.2 + maxPossible > p.2))))

/-- Result record of `PositionDefinitionCalculator`, with one optional lock
round per tracked slot and a table of lock rounds for the bottom slots. -/
structure PositionDefinitionResult where
  champion_round : Option Nat
  second_round : Option Nat
  third_round : Option Nat
  fourth_round : Option Nat
  relegation_rounds : List (Nat × Nat)
deriving DecidableEq, Repr

/-- Scan of rounds `1..totalRounds` in order, returning the first round at
which the slot is locked (the inner loop with `break` of
`calculate_position_definitions`). -/
def findLockRound (games : List Game) (teams : List String)
    (totalRounds position : Nat) : Option Nat :=
  (List.range' 1 totalRounds).find?
    (fun r => isPositionDefined games teams totalRounds position r)

/-- Embeds `PositionDefinitionCalculator.calculate_position_definitions`: slots 1-4
are scanned while the slot number does not exceed the team count, and the
bottom slots `max 1 (N-3) .. N` fill the relegation table. -/
def calculate_position_definitions (games : List Game) (teams : List String)
    (totalRounds : Nat) : PositionDefinitionResult :=
  let n := teams.length
  { champion_round := if 1 ≤ n then findLockRound games teams totalRounds 1 else none
    second_round := if 2 ≤ n then findLockRound games teams totalRounds 2 else none
    third_round := if 3 ≤ n then findLockRound games teams totalRounds 3 else none
    fourth_round := if 4 ≤ n then findLockRound games teams totalRounds 4 else none
    relegation_rounds :=
      (List.range' (max 1 (n - 3)) (n + 1 - max 1 (n - 3))).filterMap
        (fun pos => (findLockRound games teams totalRounds pos).map (fun r => (pos, r))) }

/-- Team occupying slot `position` of the standings at round `r` (the first
component of `standings[position - 1]`). -/
def occupantAt (games : List Game) (teams : List String)
    (totalRounds position r : Nat) : Option String :=
  ((getStandingsAtRound games teams totalRounds r).get? (position - 1)).map Prod.fst

/-- Well-formed season data: no game pairs a team against itself, and no
team appears in two games of the same round (each quantifier is bounded by
the game list, so the property is decidable). -/
def ValidSeason (games : List Game) : Prop :=
  (∀ g ∈ games, g.home ≠ g.away) ∧
  (∀ g ∈ games,
    ((games.filter (fun g' => decide (g'.rodada = g.rodada) &&
      (decide (g'.home = g.home) || decide (g'.away = g.home)))).length ≤ 1) ∧
    ((games.filter (fun g' => decide (g'.rodada = g.rodada) &&
      (decide (g'.home = g.away) || decide (g'.away = g.away)))).length ≤ 1))

instance (games : List Game) : Decidable (ValidSeason games) := by
  unfold ValidSeason; infer_instance

/-- Two-round season in which the runner-up exactly ties the leader at the
final round: B wins round 1, A wins round 2, both finish on 3 points. -/
def tieSeasonGames : List Game :=
  [⟨"X", 1, "A", "B", 0, 1⟩, ⟨"X", 2, "B", "A", 0, 1⟩]

/-- Four-round two-team season: A wins rounds 1 and 2, B wins rounds 3 and
4, so slot 1 is locked at round 2 with a tie arising only at round 4. -/
def lockSeasonGames : List Game :=
  [⟨"X", 1, "A", "B", 1, 0⟩, ⟨"X", 2, "B", "A", 0, 1⟩,
   ⟨"X", 3, "B", "A", 1, 0⟩, ⟨"X", 4, "B", "A", 1, 0⟩]

/-- Arithmetic mean of the strength values of a mapping. -/
def meanVals (s : List (String × ℚ)) : ℚ := (s.map Prod.snd).sum / s.length

/-- Minimum of a list of rationals (`min(values)` on a non-empty list). -/
def listMin : List ℚ → ℚ
  | [] => 0
  | x :: xs => xs.foldl min x

/-- Maximum of a list of rationals (`max(values)` on a non-empty list). -/
def listMax : List ℚ → ℚ
  | [] => 0
  | x :: xs => xs.foldl max x

/-- Embeds `DynamicStrengthCalculator._normalize_strengths`: an all-equal mapping
becomes the constant 1/2; otherwise each value is min-max rescaled and then
mapped through `0.1 + 0.8 * x` onto `[0.1, 0.9]`. -/
def normalize_strengths (strengths : List (String × ℚ)) : List (String × ℚ) :=
  if strengths = [] then strengths
  else
    let minVal := listMin (strengths.map Prod.snd)
    let maxVal := listMax (strengths.map Prod.snd)
    if maxVal = minVal then strengths.map (fun p => (p.1, 1/2))
    else strengths.map
      (fun p => (p.1, 1/10 + 4/5 * ((p.2 - minVal) / (maxVal - minVal))))

/-- Normalization tail of `RankingProcessor.calculate_team_strengths`
(the block after the default-strength loop): shift every value so the mean
becomes 1/2, then, when the shifted values are not all equal, rescale them
affinely onto `[0.1, 0.9]`. -/
def ranking_normalize (strengths : List (String × ℚ)) : List (String × ℚ) :=
  if strengths = [] then strengths
  else
    let currentMean := meanVals strengths
    let shifted := strengths.map (fun p => (p.1, p.2 - currentMean + 1/2))
    let minVal := listMin (shifted.map Prod.snd)
    let maxVal := listMax (shifted.map Prod.snd)
    if minVal < maxVal then
      shifted.map (fun p => (p.1, 1/10 + 4/5 * ((p.2 - minVal) / (maxVal - minVal))))
    else shifted

/-- Insertion step of a stable sort of games by round number, descending
(most recent first), modelling `sort_values` on `rodada` with
`ascending=False`. -/
def insertByRoundDesc (g : Game) : List Game → List Game
  | [] => [g]
  | h :: t => if g.rodada < h.rodada then h :: insertByRoundDesc g t else g :: h :: t

def sortByRoundDesc (l : List Game) : List Game := l.foldr insertByRoundDesc []

/-- Stable ascending sort of games by round number (`sort_values` on
`rodada`). -/
def insertByRoundAsc (g : Game) : List Game → List Game
  | [] => [g]
  | h :: t => if h.rodada < g.rodada then h :: insertByRoundAsc g t else g :: h :: t

def sortByRoundAsc (l : List Game) : List Game := l.foldr insertByRoundAsc []

/-- Entry `i` of `np.linspace(1.0, 0.7, m)`: evenly spaced weights from 1
down to 7/10 (a single point gives 1). -/
def linspaceWeight (m i : Nat) : ℚ :=
  if m ≤ 1 then 1 else 1 - (3/10) * i / ((m : ℚ) - 1)

/-- Goals scored by the named team in a game (home side checked first, as
in the source). -/
def goalsForTeam (team : String) (g : Game) : ℚ :=
  if g.home = team then (g.goal_home : ℚ) else (g.goal_away : ℚ)

/-- Goals conceded by the named team in a game. -/
def goalsAgainstTeam (team : String) (g : Game) : ℚ :=
  if g.home = team then (g.goal_away : ℚ) else (g.goal_home : ℚ)

/-- Home-advantage factor applied to goal contributions: 1.1 at home, 0.9
away. -/
def homeAdvantageFactor (team : String) (g : Game) : ℚ :=
  if g.home = team then 11/10 else 9/10

/-- Embeds `DynamicStrengthCalculator._calculate_team_dynamic_strength`: weighted
recent-form strength over the most recent `lookback` games, clamped to
`[0, 1]`. -/
def calculate_team_dynamic_strength (games : List Game) (team : String)
    (lookback : Nat) : ℚ :=
  let teamGames := games.filter (fun g => decide (g.home = team) || decide (g.away = team))
  if teamGames = [] then 0
  else
    let recent := (sortByRoundDesc teamGames).take lookback
    if recent = [] then 0
    else
      let m := recent.length
      let totalPoints := ((recent.enum).map (fun p =>
        (if goalsForTeam team p.2 > goalsAgainstTeam team p.2 then (3 : ℚ)
         else if goalsForTeam team p.2 = goalsAgainstTeam team p.2 then 1 else 0) *
        linspaceWeight m p.1)).sum
      let totalGoalsFor := ((recent.enum).map (fun p =>
        goalsForTeam team p.2 * linspaceWeight m p.1 * homeAdvantageFactor team p.2)).sum
      let totalGoalsAgainst := ((recent.enum).map (fun p =>
        goalsAgainstTeam team p.2 * linspaceWeight m p.1)).sum
      let avgPoints := totalPoints / m
      let avgGoalDiff := (totalGoalsFor - totalGoalsAgainst) / m
      let offensiveEff := totalGoalsFor / m
      let defensiveEff := 1 / (1 + totalGoalsAgainst / m)
      let strength := (2/5) * (avgPoints / 3) + (1/5) * ((avgGoalDiff + 3) / 6) +
        (1/5) * offensiveEff / 3 + (1/5) * defensiveEff
      max 0 (min 1 strength)

/-- Embeds `DynamicStrengthCalculator.calculate_dynamic_strengths`: when the games
table holds no match of the championship, every roster team is mapped to
1/2; otherwise recent-form strengths are computed and normalized with
lookback `(N - 1) * 2`. -/
def calculate_dynamic_strengths (games : List Game) (teams_list : List String)
    (championship_id : String) (current_round : Option Nat) : List (String × ℚ) :=
  let champGames := games.filter (fun g => decide (g.id = championship_id))
  if champGames = [] then teams_list.map (fun t => (t, 1/2))
  else
    let sortedGames := sortByRoundAsc champGames
    let upTo := match current_round with
      | some r => sortedGames.filter (fun g => decide (g.rodada ≤ r))
      | none => sortedGames
    let lookback := (teams_list.length - 1) * 2
    normalize_strengths (teams_list.map
      (fun t => (t, calculate_team_dynamic_strength upTo t lookback)))

/-- Logistic curve of `ImprovedMatchSimulator` with sharpness 3. -/
noncomputable def sigmoid (x : ℝ) : ℝ := 1 / (1 + Real.exp (-(3 * x)))

/-- Embeds `self.team_strengths.get(team, 0.5)` on an association list. -/
noncomputable def lookupStrength (ts : List (String × ℝ)) (team : String) : ℝ :=
  ((ts.find? (fun p => decide (p.1 = team))).map Prod.snd).getD (1/2)

/-- Embeds `ImprovedMatchSimulator.calculate_match_probabilities`: with an empty
strength mapping the global rates pass through unchanged; otherwise the
home strength gets a +0.1 bonus capped at 0.95, the difference goes through
the logistic, the result is blended 70/30 with the global home rate, the
remainder is split in the global draw/away ratio, and the triple is
renormalized. -/
noncomputable def calculate_match_probabilities (ts : List (String × ℝ))
    (home away : String) (global_ph global_pd global_pa : ℝ) : ℝ × ℝ × ℝ :=
  if ts = [] then (global_ph, global_pd, global_pa)
  else
    let home_strength := lookupStrength ts home
    let away_strength := lookupStrength ts away
    let home_strength_adj := min (19/20) (home_strength + 1/10)
    let strength_diff := home_strength_adj - away_strength
    let base_home_prob := sigmoid strength_diff
    let ph_adjusted := (7/10) * base_home_prob + (3/10) * global_ph
    let remaining_prob := 1 - ph_adjusted
    let total_global_remaining := global_pd + global_pa
    let pd_adjusted := if 0 < total_global_remaining
      then remaining_prob * (global_pd / total_global_remaining)
      else remaining_prob * (3/10)
    let pa_adjusted := if 0 < total_global_remaining
      then remaining_prob * (global_pa / total_global_remaining)
      else remaining_prob * (7/10)
    let total := ph_adjusted + pd_adjusted + pa_adjusted
    if 0 < total then (ph_adjusted / total, pd_adjusted / total, pa_adjusted / total)
    else (global_ph, global_pd, global_pa)

/-- Home-goal distribution of the home-win branch of
`simulate_match_result` (`np.random.choice([1, 2, 3], p=[0.4, 0.4, 0.2])`). -/
def homeWinHomeGoals : List (Nat × ℚ) := [(1, 2/5), (2, 2/5), (3, 1/5)]

/-- Away-goal distribution of the home-win branch
(`np.random.choice([0, 1], p=[0.7, 0.3])`). -/
def homeWinAwayGoals : List (Nat × ℚ) := [(0, 7/10), (1, 3/10)]

/-- Equal-score distribution of the draw branch
(`np.random.choice([0, 1, 2], p=[0.3, 0.5, 0.2])`). -/
def drawGoalsDist : List (Nat × ℚ) := [(0, 3/10), (1, 1/2), (2, 1/5)]

/-- Independent product of a home-goal and an away-goal distribution. -/
def goalsProduct (hd ad : List (Nat × ℚ)) : List ((Nat × Nat) × ℚ) :=
  hd.bind (fun h => ad.map (fun a => ((h.1, a.1), h.2 * a.2)))

/-- Scoreline pmf of `simulate_match_result` for match probabilities
`(ph, pd, 1 - ph - pd)`: the uniform draw picks the home-win branch with
mass `ph`, the draw branch with mass `pd`, and the away-win branch (the
mirror of the home-win branch) with the remaining mass. -/
def scorelineDist (ph pdr : ℚ) : List ((Nat × Nat) × ℚ) :=
  ((goalsProduct homeWinHomeGoals homeWinAwayGoals).map (fun s => (s.1, ph * s.2))) ++
  (drawGoalsDist.map (fun g => ((g.1, g.1), pdr * g.2))) ++
  ((goalsProduct homeWinAwayGoals homeWinHomeGoals).map
    (fun s => (s.1, (1 - ph - pdr) * s.2)))

/-- Scoreline pmf of one fixture in the vectorized shortcut
`_run_vectorized_simulations`: the same uniform-threshold category draw,
with fixed scorelines 2-0, 1-1 and 0-2. -/
def vectorizedScorelineDist (ph pdr : ℚ) : List ((Nat × Nat) × ℚ) :=
  [((2, 0), ph), ((1, 1), pdr), ((0, 2), 1 - ph - pdr)]

/-- Probability mass of the scorelines satisfying a predicate. -/
def probOf (pred : Nat × Nat → Bool) (dist : List ((Nat × Nat) × ℚ)) : ℚ :=
  ((dist.filter (fun s => pred s.1)).map Prod.snd).sum

def isHomeWinScore (s : Nat × Nat) : Bool := decide (s.2 < s.1)

def isDrawScore (s : Nat × Nat) : Bool := decide (s.1 = s.2)

def isAwayWinScore (s : Nat × Nat) : Bool := decide (s.1 < s.2)

/-- One raw row of the match table; each numeric cell carries the result of
`pd.to_numeric(errors="coerce")`, where `none` is an unparseable value
(NaN). -/
structure RawRow where
  id : String
  rodada : Option ℚ
  home : String
  away : String
  goal_home : Option ℚ
  goal_away : Option ℚ
deriving DecidableEq, Repr

/-- A raw match data frame: the column names present, and the rows. -/
structure RawTable where
  cols : List String
  rows : List RawRow
deriving DecidableEq, Repr

def requiredMatchColumns : List String :=
  ["id", "rodada", "home", "away", "goal_home", "goal_away"]

/-- Row survives the `dropna` on the goal and round columns. -/
def rowParsed (r : RawRow) : Bool :=
  r.goal_home.isSome && r.goal_away.isSome && r.rodada.isSome

/-- Row carries a negative goal value. -/
def rowNegGoals (r : RawRow) : Bool :=
  decide (r.goal_home.getD 0 < 0) || decide (r.goal_away.getD 0 < 0)

/-- Embeds `DataValidator.validate_dataframe`: fail when a required column is
absent; otherwise drop rows with unparseable goals or round, and, when any
negative goal exists, additionally keep only rows with non-negative
goals. -/
def validate_dataframe (df : RawTable) : Except String (List RawRow) :=
  if requiredMatchColumns.all (fun c => df.cols.contains c) then
    let df_clean := df.rows.filter rowParsed
    let invalid_goals := df_clean.filter rowNegGoals
    Except.ok (if invalid_goals = [] then df_clean
      else df_clean.filter (fun r => !(rowNegGoals r)))
  else Except.error "Colunas obrigatorias ausentes"

/-- Population variance `np.var(x, ddof=0)`. -/
def listVar (l : List ℚ) : ℚ :=
  ((l.map (fun x => (x - l.sum / l.length) ^ 2)).sum) / l.length

/-- Embeds `_calculate_theoretical_max_variance`: the reference two-tier points
distribution with `max 1 (int(0.2 N)) = max 1 (N / 5)` dominant teams; the
float truncations `int(0.8 T)` and `int(0.2 T)` and the integer divisions
of the source are the natural-number divisions `4 T / 5` and `T / 5`
followed by division by the tier size. -/
def theoretical_max_variance (num_teams round_num : Nat) : ℚ :=
  if num_teams ≤ 1 then 1
  else
    let dominant_teams := max 1 (num_teams / 5)
    let weak_teams := num_teams - dominant_teams
    let total_points := round_num * 3 * num_teams / 2
    let points_dominant := 4 * total_points / 5 / dominant_teams
    let points_weak := if 0 < weak_teams then total_points / 5 / weak_teams else 0
    listVar (List.replicate dominant_teams (points_dominant : ℚ) ++
      List.replicate weak_teams (points_weak : ℚ))

/-- Normalized imbalance value of one round, from the loop body of
`_calculate_points_progression_optimized`: population variance of the
cumulative points vector divided by the theoretical maximum, 0 when fewer
than two data points exist or the reference is not positive. -/
def normalizedVariance (points_round : List ℚ) (num_teams round_num : Nat) : ℚ :=
  if 1 < points_round.length then
    if 0 < theoretical_max_variance num_teams round_num then
      listVar points_round / theoretical_max_variance num_teams round_num
    else 0
  else 0

/-- Modelled from the spec: the reference distribution the specification
describes, in which the top `⌈0.2 N⌉` teams hold exactly 80% of the points
awarded through round `r` (total `3 r N / 2`) and the remaining teams hold
exactly 20%, with exact rational division throughout. -/
def specTwoTierVariance (num_teams round_num : Nat) : ℚ :=
  let dominant := (num_teams + 4) / 5
  let weak := num_teams - dominant
  let total : ℚ := 3 * round_num * num_teams / 2
  let d : ℚ := (4/5) * total / dominant
  let w : ℚ := if 0 < weak then (1/5) * total / weak else 0
  listVar (List.replicate dominant d ++ List.replicate weak w)

/-- Normalized imbalance of the one-round two-team season in which the home
side scores `s.1` goals and the away side `s.2`: the points vector of the
two teams pushed through the round-1 normalized variance. -/
def onematchCurve (s : Nat × Nat) : ℚ :=
  normalizedVariance [(winPoints s.1 s.2 : ℚ), (winPoints s.2 s.1 : ℚ)] 2 1

/-- Candidate test of `find_turning_point` at 0-based index `idx`: observed
above the envelope at `idx`, the count of consecutive rounds above starting
at `idx` (stopping at the first failure within the next `k`) reaches `k`,
and the fraction of remaining rounds above the envelope reaches the
threshold. -/
def tpCond (observed envelope : List ℚ) (k : Nat) (thr : ℚ) (idx : Nat) : Bool :=
  decide (envelope.getD idx 0 < observed.getD idx 0) &&
  (decide (k ≤ ((List.range k).takeWhile (fun j =>
    decide (envelope.getD (idx + j) 0 < observed.getD (idx + j) 0))).length) &&
  decide (thr ≤ (((List.range (observed.length - idx)).countP (fun j =>
    decide (envelope.getD (idx + j) 0 < observed.getD (idx + j) 0)) : ℚ) /
      ((observed.length - idx : Nat) : ℚ))))

/-- Embeds `OptimizedCompetitiveBalanceAnalyzer.find_turning_point`: scan indices
`0 .. len - k - 1` left to right with `k = max 3 (int(0.1 R)) =
max 3 (R / 10)` (float truncation) and threshold 3/4 when strength data
informed the simulation, 7/10 otherwise; the first qualifying index yields
`(idx + 1, (idx + 1) / R)`. -/
def find_turning_point (observed envelope : List ℚ) (total_rounds : Nat)
    (has_ranking_data : Bool) : Option (Nat × ℚ) :=
  let k := max 3 (total_rounds / 10)
  let thr : ℚ := if has_ranking_data then 3/4 else 7/10
  match (List.range (observed.length - k)).find? (tpCond observed envelope k thr) with
  | some idx => some (idx + 1, ((idx + 1 : Nat) : ℚ) / (total_rounds : ℚ))
  | none => none

/-- Modelled from the spec: the identical scan with
`k = max 3 (round(0.1 R))`, rounding to the nearest integer as the
specification words state. -/
def find_turning_point_spec (observed envelope : List ℚ) (total_rounds : Nat)
    (has_ranking_data : Bool) : Option (Nat × ℚ) :=
  let k := max 3 ((total_rounds + 5) / 10)
  let thr : ℚ := if has_ranking_data then 3/4 else 7/10
  match (List.range (observed.length - k)).find? (tpCond observed envelope k thr) with
  | some idx => some (idx + 1, ((idx + 1 : Nat) : ℚ) / (total_rounds : ℚ))
  | none => none

/-- Observed imbalance curve of a 35-round season used to separate the two
`k` choices: blocks of three rounds above the envelope followed by one
round on it. -/
def tpObserved : List ℚ :=
  [2, 2, 2, 0, 2, 2, 2, 0, 2, 2, 2, 0, 2, 2, 2, 0, 2, 2, 2, 0,
   2, 2, 2, 0, 2, 2, 2, 0, 2, 2, 2, 0, 2, 2, 2]

/-- Flat envelope paired with `tpObserved`. -/
def tpEnvelope : List ℚ := List.replicate 35 1

/-- Concrete raw table: one clean row, one row with unparseable round, one
row with a negative goal value. -/
def sampleRawTable : RawTable :=
  { cols := ["id", "rodada", "home", "away", "goal_home", "goal_away"]
    rows := [⟨"X", some 1, "A", "B", some 2, some 0⟩,
             ⟨"X", none, "A", "B", some 1, some 1⟩,
             ⟨"X", some 2, "B", "A", some (-1), some 0⟩] }

/-- C10: in the position-lock predicate only a strict surplus blocks a lock.
If, at a round `r` strictly before the last, every team below slot
`position` satisfies `points + 3 * (R - r) ≤ occupant points` (equality
allowed) and the occupant satisfies `occupant points + 3 * (R - r) ≤ points`
for every team above (equality allowed), the slot is reported locked:
a tie after winning out is treated as unable to change the slot. -/
theorem C10_ties_do_not_block (games : List Game) (teams : List String)
    (totalRounds position r : Nat) (hrR : r < totalRounds)
    (hlen : position ≤ (getStandingsAtRound games teams totalRounds r).length)
    (hbelow : ∀ p ∈ (getStandingsAtRound games teams totalRounds r).drop position,
      p.2 + (totalRounds - r) * 3 ≤
        ((getStandingsAtRound games teams totalRounds r).getD (position - 1) ("", 0)).2)
    (habove : ∀ p ∈ (getStandingsAtRound games teams totalRounds r).take (position - 1),
      ((getStandingsAtRound games teams totalRounds r).getD (position - 1) ("", 0)).2 +
        (totalRounds - r) * 3 ≤ p.2) :
    isPositionDefined games teams totalRounds position r = true := by
  unfold isPositionDefined
  rw [if_neg (by omega)]
  rw [if_neg (by omega)]
  rw [Bool.and_eq_true, List.all_eq_true, List.all_eq_true]
  constructor
  · intro p hp
    have := hbelow p hp
    simp only [Bool.not_eq_true', decide_eq_false_iff_not]
    omega
  · intro p hp
    have := habove p hp
    simp only [Bool.not_eq_true', decide_eq_false_iff_not]
    omega

/-- Witness for C10 at a concrete tie: in `tieSeasonGames` at round 1 the
leader B has 3 points and A below has exactly `0 + 3 * (2 - 1) = 3`, yet
slot 1 is reported locked. -/
theorem C10_ties_do_not_block_witness :
    isPositionDefined tieSeasonGames ["A", "B"] 2 1 1 = true :=
  C10_ties_do_not_block tieSeasonGames ["A", "B"] 2 1 1 (by decide) (by decide)
    (by decide) (by decide)

theorem insertStanding_perm (x : String × Nat) (l : List (String × Nat)) :
    (insertStanding x l).Perm (x :: l) := by
  induction l with
  | nil => simp [insertStanding]
  | cons y ys ih =>
    unfold insertStanding
    by_cases h : x.2 < y.2
    · rw [if_pos h]
      exact (ih.cons y).trans (List.Perm.swap x y ys)
    · rw [if_neg h]

theorem sortStandings_perm (l : List (String × Nat)) : (sortStandings l).Perm l := by
  induction l with
  | nil => simp [sortStandings]
  | cons x xs ih =>
    exact (insertStanding_perm x (sortStandings xs)).trans (ih.cons x)

theorem insertStanding_sorted (x : String × Nat) (l : List (String × Nat))
    (h : l.Pairwise (fun a b => b.2 ≤ a.2)) :
    (insertStanding x l).Pairwise (fun a b => b.2 ≤ a.2) := by
  induction l with
  | nil => simp [insertStanding]
  | cons y ys ih =>
    rw [List.pairwise_cons] at h
    obtain ⟨hy, hys⟩ := h
    unfold insertStanding
    by_cases hxy : x.2 < y.2
    · rw [if_pos hxy]
      rw [List.pairwise_cons]
      refine ⟨?_, ih hys⟩
      intro b hb
      rcases List.mem_cons.mp ((insertStanding_perm x ys).mem_iff.mp hb) with rfl | h2
      · omega
      · exact hy b h2
    · rw [if_neg hxy]
      rw [List.pairwise_cons]
      refine ⟨?_, List.pairwise_cons.mpr ⟨hy, hys⟩⟩
      intro b hb
      rcases List.mem_cons.mp hb with rfl | h2
      · omega
      · have := hy b h2
        omega

theorem sortStandings_sorted (l : List (String × Nat)) :
    (sortStandings l).Pairwise (fun a b => b.2 ≤ a.2) := by
  induction l with
  | nil => simp [sortStandings]
  | cons x xs ih => exact insertStanding_sorted x (sortStandings xs) ih

/-- In a list sorted by points descending, if at most `k` entries have
points above `v` and more than `k` entries have points at least `v`, then
the entry at index `k` has points exactly `v`. -/
theorem sorted_get_of_counts (v : Nat) :
    ∀ (l : List (String × Nat)), l.Pairwise (fun a b => b.2 ≤ a.2) →
    ∀ k, l.countP (fun x => decide (v < x.2)) ≤ k →
      k < l.countP (fun x => decide (v ≤ x.2)) →
      ∃ x, l.get? k = some x ∧ x.2 = v := by
  intro l
  induction l with
  | nil =>
    intro _ k h1 h2
    simp at h2
  | cons y ys ih =>
    intro hs k h1 h2
    rw [List.pairwise_cons] at hs
    obtain ⟨hy, hys⟩ := hs
    rw [List.countP_cons] at h1 h2
    by_cases hyv : v < y.2
    · rw [if_pos (by simpa using hyv)] at h1
      rw [if_pos (by simp; omega)] at h2
      cases k with
      | zero => omega
      | succ k' =>
        obtain ⟨x, hx, hxv⟩ := ih hys k' (by omega) (by omega)
        exact ⟨x, by simpa [List.get?] using hx, hxv⟩
    · have hyle : y.2 ≤ v := by omega
      have hys0 : ys.countP (fun x => decide (v < x.2)) = 0 := by
        rw [List.countP_eq_zero]
        intro a ha
        have := hy a ha
        simp
        omega
      cases k with
      | zero =>
        refine ⟨y, rfl, ?_⟩
        by_contra hne
        have hylt : y.2 < v := by omega
        have : (y :: ys).countP (fun x => decide (v ≤ x.2)) = 0 := by
          rw [List.countP_eq_zero]
          intro a ha
          rcases List.mem_cons.mp ha with rfl | h2
          · simp; omega
          · have := hy a h2
            simp
            omega
        rw [List.countP_cons] at this
        omega
      | succ k' =>
        by_cases hveq : v ≤ y.2
        · have hyeq : y.2 = v := by omega
          rw [if_pos (by simpa using hveq)] at h2
          obtain ⟨x, hx, hxv⟩ := ih hys k' (by omega) (by omega)
          exact ⟨x, by simpa [List.get?] using hx, hxv⟩
        · have : ys.countP (fun x => decide (v ≤ x.2)) = 0 := by
            rw [List.countP_eq_zero]
            intro a ha
            have := hy a ha
            simp
            omega
          rw [if_neg (by simpa using hveq)] at h2
          omega

theorem filter_and_comm (p q : Game → Bool) (l : List Game) :
    (l.filter p).filter q = l.filter (fun a => p a && q a) := by
  induction l with
  | nil => rfl
  | cons a l ih => by_cases hp : p a <;> by_cases hq : q a <;>
      simp [List.filter_cons, hp, hq, ih]

/-- A valid season schedules each team at most once per round. -/
theorem validSeason_once (games : List Game) (hv : ValidSeason games)
    (t : String) (r : Nat) :
    (games.filter (fun g' => decide (g'.rodada = r) &&
      (decide (g'.home = t) || decide (g'.away = t)))).length ≤ 1 := by
  by_cases h : games.filter (fun g' => decide (g'.rodada = r) &&
      (decide (g'.home = t) || decide (g'.away = t))) = []
  · simp [h]
  · obtain ⟨g, hg⟩ := List.exists_mem_of_ne_nil _ h
    have hmem := List.mem_filter.mp hg
    obtain ⟨hgg, hcond⟩ := hmem
    rw [Bool.and_eq_true, Bool.or_eq_true, decide_eq_true_eq, decide_eq_true_eq,
      decide_eq_true_eq] at hcond
    obtain ⟨hr, hht⟩ := hcond
    subst hr
    rcases hht with hh | ha
    · subst hh
      exact (hv.2 g hgg).1
    · subst ha
      exact (hv.2 g hgg).2

theorem winPoints_le (a b : Nat) : winPoints a b ≤ 3 := by
  unfold winPoints
  split
  · omega
  · split <;> omega

theorem gamePoints_le (t : String) (g : Game) (h : g.home ≠ g.away) :
    gamePoints t g ≤ 3 := by
  unfold gamePoints
  by_cases hh : g.home = t
  · rw [if_pos hh, if_neg (by rw [← hh] at *; exact fun hc => h hc.symm)]
    have := winPoints_le g.goal_home g.goal_away
    omega
  · rw [if_neg hh]
    have := winPoints_le g.goal_away g.goal_home
    split <;> omega

theorem gamePoints_eq_zero (t : String) (g : Game)
    (h1 : g.home ≠ t) (h2 : g.away ≠ t) : gamePoints t g = 0 := by
  unfold gamePoints
  rw [if_neg h1, if_neg h2]

theorem sum_gamePoints_le (t : String) :
    ∀ (l : List Game), (∀ g ∈ l, g.home ≠ g.away) →
      (l.filter (fun g => decide (g.home = t) || decide (g.away = t))).length ≤ 1 →
      (l.map (gamePoints t)).sum ≤ 3 := by
  intro l
  induction l with
  | nil => simp
  | cons g gs ih =>
    intro hne hcount
    by_cases hi : (decide (g.home = t) || decide (g.away = t)) = true
    · simp only [List.filter_cons, hi, if_true, List.length_cons] at hcount
      have hnil : gs.filter (fun g => decide (g.home = t) || decide (g.away = t)) = [] :=
        List.length_eq_zero.mp (by omega)
      have hz : ∀ g' ∈ gs, gamePoints t g' = 0 := by
        intro g' hg'
        have hni := List.filter_eq_nil_iff.mp hnil g' hg'
        rw [Bool.or_eq_true, decide_eq_true_eq, decide_eq_true_eq] at hni
        push_neg at hni
        exact gamePoints_eq_zero t g' hni.1 hni.2
      have hsum0 : (gs.map (gamePoints t)).sum = 0 := by
        apply List.sum_eq_zero
        intro x hx
        obtain ⟨g', hg', rfl⟩ := List.mem_map.mp hx
        exact hz g' hg'
      have hg3 : gamePoints t g ≤ 3 := gamePoints_le t g (hne g (by simp))
      simp [hsum0]
      omega
    · have hi' : ¬ (g.home = t ∨ g.away = t) := by
        rw [Bool.or_eq_true, decide_eq_true_eq, decide_eq_true_eq] at hi
        exact hi
      push_neg at hi'
      have h0 : gamePoints t g = 0 := gamePoints_eq_zero t g hi'.1 hi'.2
      simp only [List.filter_cons, Bool.not_eq_true] at hcount
      rw [if_neg hi] at hcount
      simp only [List.map_cons, List.sum_cons, h0, Nat.zero_add]
      exact ih (fun g' hg' => hne g' (List.mem_cons_of_mem _ hg')) hcount

/-- In a valid season a team gains at most 3 points per round. -/
theorem roundPoints_le_three (games : List Game) (hv : ValidSeason games)
    (t : String) (r : Nat) : roundPoints games t r ≤ 3 := by
  unfold roundPoints
  apply sum_gamePoints_le
  · intro g hg
    exact hv.1 g (List.mem_of_mem_filter hg)
  · rw [filter_and_comm]
    exact validSeason_once games hv t r

theorem pointsAtRound_le_add (games : List Game) (hv : ValidSeason games)
    (t : String) (r : Nat) :
    ∀ d, pointsAtRound games t (r + d) ≤ pointsAtRound games t r + 3 * d := by
  intro d
  induction d with
  | zero => simp
  | succ d ih =>
    have : pointsAtRound games t (r + (d + 1)) =
        pointsAtRound games t (r + d) + roundPoints games t (r + d + 1) := rfl
    rw [this]
    have := roundPoints_le_three games hv t (r + d + 1)
    omega

theorem pointsAtRound_mono (games : List Game) (t : String) (r : Nat) :
    ∀ d, pointsAtRound games t r ≤ pointsAtRound games t (r + d) := by
  intro d
  induction d with
  | zero => simp
  | succ d ih =>
    have : pointsAtRound games t (r + (d + 1)) =
        pointsAtRound games t (r + d) + roundPoints games t (r + d + 1) := rfl
    omega

theorem pointsAtRound_mono_le (games : List Game) (t : String) {r r' : Nat}
    (h : r ≤ r') : pointsAtRound games t r ≤ pointsAtRound games t r' := by
  have := pointsAtRound_mono games t r (r' - r)
  rwa [Nat.add_sub_cancel' h] at this

theorem pointsAtRound_lipschitz (games : List Game) (hv : ValidSeason games)
    (t : String) {r r' : Nat} (h : r ≤ r') :
    pointsAtRound games t r' ≤ pointsAtRound games t r + 3 * (r' - r) := by
  have := pointsAtRound_le_add games hv t r (r' - r)
  rwa [Nat.add_sub_cancel' h] at this

/-- Core stability fact behind claim C6: if slot `p` is locked at a round
`r < R` of a valid season, then at every later round `r''` the entry at
index `p - 1` of the standings has exactly the points of the original
occupant, and strictly before the final round it is the original occupant
itself. -/
theorem lock_occupant_core (games : List Game) (teams : List String)
    (R p r : Nat) (hv : ValidSeason games)
    (hr1 : 1 ≤ r) (hrR : r < R) (hp1 : 1 ≤ p) (hpN : p ≤ teams.length)
    (hdef : isPositionDefined games teams R p r = true) :
    ∃ o : String × Nat,
      (getStandingsAtRound games teams R r).get? (p - 1) = some o ∧
      ∀ r'', r < r'' → r'' ≤ R →
        ∃ x, (getStandingsAtRound games teams R r'').get? (p - 1) = some x ∧
          x.2 = pointsAtRound games x.1 r'' ∧
          x.2 = pointsAtRound games o.1 r'' ∧
          (r'' < R → x.1 = o.1) := by
  have hstand : getStandingsAtRound games teams R r =
      sortStandings (teams.map (fun t => (t, pointsAtRound games t r))) := by
    unfold getStandingsAtRound
    rw [if_neg (by omega)]
  set S := sortStandings (teams.map (fun t => (t, pointsAtRound games t r))) with hSdef
  have hSperm : S.Perm (teams.map (fun t => (t, pointsAtRound games t r))) :=
    sortStandings_perm _
  have hSlen : S.length = teams.length := by rw [hSperm.length_eq, List.length_map]
  have hmemS : ∀ x ∈ S, x.1 ∈ teams ∧ x.2 = pointsAtRound games x.1 r := by
    intro x hx
    obtain ⟨t, ht, rfl⟩ := List.mem_map.mp (hSperm.mem_iff.mp hx)
    exact ⟨ht, rfl⟩
  have hplt : p - 1 < S.length := by omega
  obtain ⟨o, ho⟩ : ∃ o, S.get? (p - 1) = some o := by
    rw [List.get?_eq_get hplt]
    exact ⟨_, rfl⟩
  have hoS : o ∈ S := List.get?_mem ho
  have hoteam : o.1 ∈ teams := (hmemS o hoS).1
  have hopts : o.2 = pointsAtRound games o.1 r := (hmemS o hoS).2
  unfold isPositionDefined at hdef
  rw [if_neg (by omega), hstand] at hdef
  rw [if_neg (by omega)] at hdef
  rw [Bool.and_eq_true, List.all_eq_true, List.all_eq_true] at hdef
  obtain ⟨hbel0, habv0⟩ := hdef
  have hgetD : S.getD (p - 1) ("", 0) = o := by
    rw [List.getD_eq_get?, ho]
    rfl
  have hbel : ∀ x ∈ S.drop p, x.2 + (R - r) * 3 ≤ o.2 := by
    intro x hx
    have := hbel0 x hx
    rw [hgetD] at this
    simp only [Bool.not_eq_true', decide_eq_false_iff_not] at this
    omega
  have habv : ∀ x ∈ S.take (p - 1), o.2 + (R - r) * 3 ≤ x.2 := by
    intro x hx
    have := habv0 x hx
    rw [hgetD] at this
    simp only [Bool.not_eq_true', decide_eq_false_iff_not] at this
    omega
  have hgo : S.get ⟨p - 1, hplt⟩ = o := by
    have h := List.get?_eq_get hplt
    rw [ho] at h
    exact (Option.some_inj.mp h).symm
  have hdropc : S.drop (p - 1) = o :: S.drop p := by
    rw [List.drop_eq_getElem_cons hplt]
    rw [show p - 1 + 1 = p from by omega]
    congr 1
  have hsplit : S = S.take (p - 1) ++ (o :: S.drop p) := by
    conv_lhs => rw [← List.take_append_drop (p - 1) S]
    rw [hdropc]
  have htklen : (S.take (p - 1)).length = p - 1 := by
    rw [List.length_take]
    omega
  refine ⟨o, by rw [hstand]; exact ho, ?_⟩
  intro r'' hr'' hr''R
  have hstand'' : getStandingsAtRound games teams R r'' =
      sortStandings (teams.map (fun t => (t, pointsAtRound games t r''))) := by
    unfold getStandingsAtRound
    rw [if_neg (by omega)]
  have hS''perm : (sortStandings (teams.map (fun t => (t, pointsAtRound games t r'')))).Perm
      (teams.map (fun t => (t, pointsAtRound games t r''))) := sortStandings_perm _
  have hup : ∀ x ∈ S.take (p - 1),
      pointsAtRound games o.1 r'' ≤ pointsAtRound games x.1 r'' ∧
      (r'' < R → pointsAtRound games o.1 r'' < pointsAtRound games x.1 r'') := by
    intro x hx
    have hxS : x ∈ S := List.take_subset _ _ hx
    have hxpts : x.2 = pointsAtRound games x.1 r := (hmemS x hxS).2
    have h1 := habv x hx
    have h2 : pointsAtRound games x.1 r ≤ pointsAtRound games x.1 r'' :=
      pointsAtRound_mono_le games x.1 (by omega)
    have h3 : pointsAtRound games o.1 r'' ≤ pointsAtRound games o.1 r + 3 * (r'' - r) :=
      pointsAtRound_lipschitz games hv o.1 (by omega)
    rw [← hopts] at h3
    constructor <;> omega
  have hdown : ∀ x ∈ S.drop p,
      pointsAtRound games x.1 r'' ≤ pointsAtRound games o.1 r'' ∧
      (r'' < R → pointsAtRound games x.1 r'' < pointsAtRound games o.1 r'') := by
    intro x hx
    have hxS : x ∈ S := List.drop_subset _ _ hx
    have hxpts : x.2 = pointsAtRound games x.1 r := (hmemS x hxS).2
    have h1 := hbel x hx
    have h2 : pointsAtRound games x.1 r'' ≤ pointsAtRound games x.1 r + 3 * (r'' - r) :=
      pointsAtRound_lipschitz games hv x.1 (by omega)
    have h3 : o.2 ≤ pointsAtRound games o.1 r'' := by
      rw [hopts]
      exact pointsAtRound_mono_le games o.1 (by omega)
    constructor <;> omega
  have hfst : (teams.map (fun t => (t, pointsAtRound games t r))).map Prod.fst = teams := by
    rw [List.map_map]
    exact List.map_id'' (fun a => rfl) teams
  have hfstperm : (S.map Prod.fst).Perm teams := by
    have := hSperm.map Prod.fst
    rwa [hfst] at this
  have hLperm : (teams.map (fun t => (t, pointsAtRound games t r''))).Perm
      (S.map (fun x => (x.1, pointsAtRound games x.1 r''))) := by
    have h3 := (hfstperm.map (fun t => (t, pointsAtRound games t r''))).symm
    rw [List.map_map] at h3
    exact h3
  have hcount : ∀ q : (String × Nat) → Bool,
      (sortStandings (teams.map (fun t => (t, pointsAtRound games t r'')))).countP q =
        (S.take (p - 1)).countP (fun x => q (x.1, pointsAtRound games x.1 r'')) +
        ((S.drop p).countP (fun x => q (x.1, pointsAtRound games x.1 r'')) +
          (if q (o.1, pointsAtRound games o.1 r'') then 1 else 0)) := by
    intro q
    rw [hS''perm.countP_eq, hLperm.countP_eq]
    conv_lhs => rw [hsplit]
    rw [List.map_append, List.countP_append, List.map_cons, List.countP_cons,
      List.countP_map, List.countP_map]
    rfl
  have hcount_gt : (sortStandings (teams.map (fun t => (t, pointsAtRound games t r'')))).countP
      (fun y => decide (pointsAtRound games o.1 r'' < y.2)) =
      (S.take (p - 1)).countP
        (fun x => decide (pointsAtRound games o.1 r'' < pointsAtRound games x.1 r'')) +
      ((S.drop p).countP
        (fun x => decide (pointsAtRound games o.1 r'' < pointsAtRound games x.1 r'')) +
        (if decide (pointsAtRound games o.1 r'' < pointsAtRound games o.1 r'') = true
          then 1 else 0)) :=
    hcount (fun y => decide (pointsAtRound games o.1 r'' < y.2))
  have hcount_ge : (sortStandings (teams.map (fun t => (t, pointsAtRound games t r'')))).countP
      (fun y => decide (pointsAtRound games o.1 r'' ≤ y.2)) =
      (S.take (p - 1)).countP
        (fun x => decide (pointsAtRound games o.1 r'' ≤ pointsAtRound games x.1 r'')) +
      ((S.drop p).countP
        (fun x => decide (pointsAtRound games o.1 r'' ≤ pointsAtRound games x.1 r'')) +
        (if decide (pointsAtRound games o.1 r'' ≤ pointsAtRound games o.1 r'') = true
          then 1 else 0)) :=
    hcount (fun y => decide (pointsAtRound games o.1 r'' ≤ y.2))
  have htkcgt : (S.take (p - 1)).countP
      (fun x => decide (pointsAtRound games o.1 r'' < pointsAtRound games x.1 r'')) ≤
      p - 1 := by
    calc (S.take (p - 1)).countP _ ≤ (S.take (p - 1)).length := List.countP_le_length _
    _ = p - 1 := htklen
  have hdzero : (S.drop p).countP
      (fun x => decide (pointsAtRound games o.1 r'' < pointsAtRound games x.1 r'')) = 0 := by
    rw [List.countP_eq_zero]
    intro a ha
    have := (hdown a ha).1
    simp only [decide_eq_true_eq]
    omega
  have hcgt_le : (sortStandings (teams.map (fun t => (t, pointsAtRound games t r'')))).countP
      (fun y => decide (pointsAtRound games o.1 r'' < y.2)) ≤ p - 1 := by
    rw [hcount_gt, hdzero]
    have hh : (if decide (pointsAtRound games o.1 r'' < pointsAtRound games o.1 r'') = true
        then 1 else 0) = 0 := by simp
    rw [hh]
    omega
  have htkcge : (S.take (p - 1)).countP
      (fun x => decide (pointsAtRound games o.1 r'' ≤ pointsAtRound games x.1 r'')) =
      (S.take (p - 1)).length := by
    rw [List.countP_eq_length]
    intro a ha
    have := (hup a ha).1
    simp only [decide_eq_true_eq]
    omega
  have hcge : p ≤ (sortStandings (teams.map (fun t => (t, pointsAtRound games t r'')))).countP
      (fun y => decide (pointsAtRound games o.1 r'' ≤ y.2)) := by
    rw [hcount_ge, htkcge, htklen]
    have hh : (if decide (pointsAtRound games o.1 r'' ≤ pointsAtRound games o.1 r'') = true
        then 1 else 0) = 1 := by simp
    rw [hh]
    omega
  obtain ⟨x, hxget, hxval⟩ :=
    sorted_get_of_counts (pointsAtRound games o.1 r'')
      (sortStandings (teams.map (fun t => (t, pointsAtRound games t r''))))
      (sortStandings_sorted _) (p - 1) hcgt_le (by omega)
  have hxS'' : x ∈ sortStandings (teams.map (fun t => (t, pointsAtRound games t r''))) :=
    List.get?_mem hxget
  obtain ⟨t, ht, hteq⟩ := List.mem_map.mp (hS''perm.mem_iff.mp hxS'')
  have hxpts : x.2 = pointsAtRound games x.1 r'' := by
    rw [← hteq]
  refine ⟨x, by rw [hstand'']; exact hxget, hxpts, hxval, ?_⟩
  intro hr''lt
  have htmem : x.1 ∈ S.map Prod.fst := by
    rw [hfstperm.mem_iff]
    rw [← hteq]
    exact ht
  obtain ⟨y, hyS, hyfst⟩ := List.mem_map.mp htmem
  have hymem : y ∈ S.take (p - 1) ++ (o :: S.drop p) := by
    rw [← hsplit]
    exact hyS
  rcases List.mem_append.mp hymem with hyup | hyrest
  · exfalso
    have := (hup y hyup).2 hr''lt
    rw [hyfst] at this
    rw [← hxpts, hxval] at this
    omega
  · rcases List.mem_cons.mp hyrest with rfl | hydown
    · exact hyfst.symm
    · exfalso
      have := (hdown y hydown).2 hr''lt
      rw [hyfst] at this
      rw [← hxpts, hxval] at this
      omega

/-- C6 (amended): in a valid season, once the position-lock predicate holds
for slot `p` at a round `r < R`, the occupant of slot `p` is unchanged at
every later round strictly before `R`, and at the final round `R` the
occupant of slot `p` can change only to a team with exactly the same
points total: a strict overtaking is impossible, only an exact-points tie
resolved by the stable sort order can swap the occupant. -/
theorem C6_lock_occupant_stable (games : List Game) (teams : List String)
    (R p r : Nat) (hv : ValidSeason games)
    (hr1 : 1 ≤ r) (hrR : r < R) (hp1 : 1 ≤ p) (hpN : p ≤ teams.length)
    (hdef : isPositionDefined games teams R p r = true) :
    (∀ r', r < r' → r' < R →
      occupantAt games teams R p r' = occupantAt games teams R p r) ∧
    (∀ o oR, occupantAt games teams R p r = some o →
      occupantAt games teams R p R = some oR →
      pointsAtRound games oR R = pointsAtRound games o R) := by
  obtain ⟨o, ho, hstab⟩ :=
    lock_occupant_core games teams R p r hv hr1 hrR hp1 hpN hdef
  constructor
  · intro r' h1 h2
    obtain ⟨x, hx, hxpts, hxc, hxid⟩ := hstab r' h1 (by omega)
    unfold occupantAt
    rw [ho, hx]
    simp [hxid h2]
  · intro o' oR ho' hoR
    obtain ⟨x, hx, hxpts, hxc, _⟩ := hstab R hrR le_rfl
    unfold occupantAt at ho' hoR
    rw [ho] at ho'
    rw [hx] at hoR
    simp only [Option.map_some', Option.some_inj] at ho' hoR
    rw [← ho', ← hoR]
    rw [← hxpts, hxc]

/-- Witness for C6 (amended) on `lockSeasonGames`: slot 1 locks at round 2
and the occupant at round 3 is unchanged. -/
theorem C6_lock_occupant_stable_witness :
    occupantAt lockSeasonGames ["A", "B"] 4 1 3 =
      occupantAt lockSeasonGames ["A", "B"] 4 1 2 :=
  (C6_lock_occupant_stable lockSeasonGames ["A", "B"] 4 1 2 (by decide) (by decide)
    (by decide) (by decide) (by decide) (by decide)).1 3 (by decide) (by decide)

/-- C6 counterexample: in `tieSeasonGames` slot 1 is locked at round 1
(occupant B, 3 points, A can only exactly tie), but at the final round A
ties B on points and the stable descending sort places A, earlier in the
alphabetically sorted team list, into slot 1: the occupant changes after
the lock. -/
theorem C6_counterexample :
    isPositionDefined tieSeasonGames ["A", "B"] 2 1 1 = true ∧
    occupantAt tieSeasonGames ["A", "B"] 2 1 1 = some "B" ∧
    occupantAt tieSeasonGames ["A", "B"] 2 1 2 = some "A" := by
  refine ⟨by decide, by decide, by decide⟩

/-- The predicate reports every slot locked at the final round. -/
theorem isPositionDefined_at_last (games : List Game) (teams : List String)
    (R pos : Nat) : isPositionDefined games teams R pos R = true := by
  unfold isPositionDefined
  rw [if_pos le_rfl]

theorem findLockRound_isSome (games : List Game) (teams : List String)
    (R pos : Nat) (hR : 1 ≤ R) :
    ∃ r', findLockRound games teams R pos = some r' ∧ 1 ≤ r' ∧ r' ≤ R := by
  unfold findLockRound
  by_cases h : (List.range' 1 R).find?
      (fun r => isPositionDefined games teams R pos r) = none
  · exfalso
    have hmem : R ∈ List.range' 1 R := by
      rw [List.mem_range'_1]
      omega
    have := List.find?_eq_none.mp h R hmem
    exact this (isPositionDefined_at_last games teams R pos)
  · obtain ⟨r', hr'⟩ := Option.ne_none_iff_exists'.mp h
    have hmem := List.mem_of_find?_eq_some hr'
    rw [List.mem_range'_1] at hmem
    exact ⟨r', hr', by omega, by omega⟩

/-- C9: in every season with at least one round the position-lock predicate
holds at round `R` for every slot, hence `calculate_position_definitions`
assigns to each computed slot (slots 1-4 while the roster is large enough,
and each bottom slot) a lock round that exists and lies in `[1, R]`: the
optional lock fields of those slots are never left unset. -/
theorem C9_lock_rounds_assigned (games : List Game) (teams : List String)
    (R : Nat) (hR : 1 ≤ R) :
    (∀ pos, isPositionDefined games teams R pos R = true) ∧
    (1 ≤ teams.length → ∃ r',
      (calculate_position_definitions games teams R).champion_round = some r' ∧
      1 ≤ r' ∧ r' ≤ R) ∧
    (2 ≤ teams.length → ∃ r',
      (calculate_position_definitions games teams R).second_round = some r' ∧
      1 ≤ r' ∧ r' ≤ R) ∧
    (3 ≤ teams.length → ∃ r',
      (calculate_position_definitions games teams R).third_round = some r' ∧
      1 ≤ r' ∧ r' ≤ R) ∧
    (4 ≤ teams.length → ∃ r',
      (calculate_position_definitions games teams R).fourth_round = some r' ∧
      1 ≤ r' ∧ r' ≤ R) ∧
    (∀ pos, max 1 (teams.length - 3) ≤ pos → pos ≤ teams.length → ∃ r',
      (pos, r') ∈ (calculate_position_definitions games teams R).relegation_rounds ∧
      1 ≤ r' ∧ r' ≤ R) := by
  refine ⟨fun pos => isPositionDefined_at_last games teams R pos, ?_, ?_, ?_, ?_, ?_⟩
  · intro hn
    obtain ⟨r', hr', h1, h2⟩ := findLockRound_isSome games teams R 1 hR
    refine ⟨r', ?_, h1, h2⟩
    unfold calculate_position_definitions
    simp only [if_pos hn]
    exact hr'
  · intro hn
    obtain ⟨r', hr', h1, h2⟩ := findLockRound_isSome games teams R 2 hR
    refine ⟨r', ?_, h1, h2⟩
    unfold calculate_position_definitions
    simp only [if_pos hn]
    exact hr'
  · intro hn
    obtain ⟨r', hr', h1, h2⟩ := findLockRound_isSome games teams R 3 hR
    refine ⟨r', ?_, h1, h2⟩
    unfold calculate_position_definitions
    simp only [if_pos hn]
    exact hr'
  · intro hn
    obtain ⟨r', hr', h1, h2⟩ := findLockRound_isSome games teams R 4 hR
    refine ⟨r', ?_, h1, h2⟩
    unfold calculate_position_definitions
    simp only [if_pos hn]
    exact hr'
  · intro pos hlo hhi
    obtain ⟨r', hr', h1, h2⟩ := findLockRound_isSome games teams R pos hR
    refine ⟨r', ?_, h1, h2⟩
    unfold calculate_position_definitions
    simp only []
    rw [List.mem_filterMap]
    refine ⟨pos, ?_, ?_⟩
    · rw [List.mem_range'_1]
      omega
    · rw [hr']
      rfl

/-- Witness for C9 on `lockSeasonGames`: the champion slot receives a lock
round within the season. -/
theorem C9_lock_rounds_assigned_witness :
    ∃ r', (calculate_position_definitions lockSeasonGames ["A", "B"] 4).champion_round =
      some r' ∧ 1 ≤ r' ∧ r' ≤ 4 :=
  (C9_lock_rounds_assigned lockSeasonGames ["A", "B"] 4 (by decide)).2.1 (by decide)

theorem foldl_min_le_init (l : List ℚ) : ∀ a : ℚ, l.foldl min a ≤ a := by
  induction l with
  | nil => intro a; simp
  | cons x xs ih =>
    intro a
    calc (x :: xs).foldl min a = xs.foldl min (min a x) := rfl
    _ ≤ min a x := ih _
    _ ≤ a := min_le_left _ _

theorem foldl_min_le_mem (l : List ℚ) : ∀ a : ℚ, ∀ x ∈ l, l.foldl min a ≤ x := by
  induction l with
  | nil => intro a x hx; simp at hx
  | cons y ys ih =>
    intro a x hx
    rcases List.mem_cons.mp hx with rfl | h
    · calc ys.foldl min (min a x) ≤ min a x := foldl_min_le_init _ _
      _ ≤ x := min_le_right _ _
    · exact ih (min a y) x h

theorem listMin_le (l : List ℚ) (x : ℚ) (hx : x ∈ l) : listMin l ≤ x := by
  cases l with
  | nil => simp at hx
  | cons y ys =>
    rcases List.mem_cons.mp hx with rfl | h
    · exact foldl_min_le_init ys x
    · exact foldl_min_le_mem ys y x h

theorem foldl_max_ge_init (l : List ℚ) : ∀ a : ℚ, a ≤ l.foldl max a := by
  induction l with
  | nil => intro a; simp
  | cons x xs ih =>
    intro a
    calc a ≤ max a x := le_max_left _ _
    _ ≤ xs.foldl max (max a x) := ih _

theorem foldl_max_ge_mem (l : List ℚ) : ∀ a : ℚ, ∀ x ∈ l, x ≤ l.foldl max a := by
  induction l with
  | nil => intro a x hx; simp at hx
  | cons y ys ih =>
    intro a x hx
    rcases List.mem_cons.mp hx with rfl | h
    · calc x ≤ max a x := le_max_right _ _
      _ ≤ ys.foldl max (max a x) := foldl_max_ge_init _ _
    · exact ih (max a y) x h

theorem le_listMax (l : List ℚ) (x : ℚ) (hx : x ∈ l) : x ≤ listMax l := by
  cases l with
  | nil => simp at hx
  | cons y ys =>
    rcases List.mem_cons.mp hx with rfl | h
    · exact foldl_max_ge_init ys x
    · exact foldl_max_ge_mem ys y x h

theorem foldl_min_const (c : ℚ) : ∀ (l : List ℚ), (∀ x ∈ l, x = c) →
    l.foldl min c = c := by
  intro l
  induction l with
  | nil => intro _; rfl
  | cons x xs ih =>
    intro h
    have hx : x = c := h x (by simp)
    show xs.foldl min (min c x) = c
    rw [hx, min_self]
    exact ih (fun y hy => h y (List.mem_cons_of_mem _ hy))

theorem foldl_max_const (c : ℚ) : ∀ (l : List ℚ), (∀ x ∈ l, x = c) →
    l.foldl max c = c := by
  intro l
  induction l with
  | nil => intro _; rfl
  | cons x xs ih =>
    intro h
    have hx : x = c := h x (by simp)
    show xs.foldl max (max c x) = c
    rw [hx, max_self]
    exact ih (fun y hy => h y (List.mem_cons_of_mem _ hy))

theorem listMin_const (c : ℚ) (l : List ℚ) (hne : l ≠ []) (h : ∀ x ∈ l, x = c) :
    listMin l = c := by
  cases l with
  | nil => exact absurd rfl hne
  | cons y ys =>
    have hy : y = c := h y (by simp)
    show ys.foldl min y = c
    rw [hy]
    exact foldl_min_const c ys (fun x hx => h x (List.mem_cons_of_mem _ hx))

theorem listMax_const (c : ℚ) (l : List ℚ) (hne : l ≠ []) (h : ∀ x ∈ l, x = c) :
    listMax l = c := by
  cases l with
  | nil => exact absurd rfl hne
  | cons y ys =>
    have hy : y = c := h y (by simp)
    show ys.foldl max y = c
    rw [hy]
    exact foldl_max_const c ys (fun x hx => h x (List.mem_cons_of_mem _ hx))

theorem sum_const_eq (c : ℚ) : ∀ (l : List ℚ), (∀ x ∈ l, x = c) →
    l.sum = l.length * c := by
  intro l
  induction l with
  | nil => intro _; simp
  | cons x xs ih =>
    intro h
    have hx : x = c := h x (by simp)
    have := ih (fun y hy => h y (List.mem_cons_of_mem _ hy))
    simp only [List.sum_cons, List.length_cons, hx, this]
    push_cast
    ring

theorem sum_map_add_const (l : List ℚ) (c : ℚ) :
    (l.map (fun v => v + c)).sum = l.sum + l.length * c := by
  induction l with
  | nil => simp
  | cons x xs ih =>
    simp only [List.map_cons, List.sum_cons, List.length_cons, ih]
    push_cast
    ring

theorem scale_bounds (v mn mx : ℚ) (h1 : mn ≤ v) (h2 : v ≤ mx) (h3 : mn < mx) :
    1/10 ≤ 1/10 + 4/5 * ((v - mn) / (mx - mn)) ∧
    1/10 + 4/5 * ((v - mn) / (mx - mn)) ≤ 9/10 := by
  have hpos : 0 < mx - mn := by linarith
  have ht0 : 0 ≤ (v - mn) / (mx - mn) := div_nonneg (by linarith) (le_of_lt hpos)
  have ht1 : (v - mn) / (mx - mn) ≤ 1 := by
    rw [div_le_one hpos]
    linarith
  constructor <;> linarith

/-- C1 (amended): on every non-empty mapping both finishing normalizations
(dynamic min-max rescale, ranking shift-then-rescale) return values inside
`[0.1, 0.9]`, and a mapping whose raw strengths are all identical maps
every team to exactly 1/2. The mean of the returned values is, however, not
guaranteed to be near 1/2: the final affine rescale does not preserve it. -/
theorem C1_normalization_bounds (s : List (String × ℚ)) (hne : s ≠ []) :
    (∀ p ∈ normalize_strengths s, 1/10 ≤ p.2 ∧ p.2 ≤ 9/10) ∧
    (∀ p ∈ ranking_normalize s, 1/10 ≤ p.2 ∧ p.2 ≤ 9/10) ∧
    (∀ c : ℚ, (∀ p ∈ s, p.2 = c) →
      (∀ p ∈ normalize_strengths s, p.2 = 1/2) ∧
      (∀ p ∈ ranking_normalize s, p.2 = 1/2)) := by
  have hlenpos : 0 < s.length := List.length_pos.mpr hne
  have hmapne : s.map Prod.snd ≠ [] := by
    simpa using hne
  refine ⟨?_, ?_, ?_⟩
  · intro p hp
    unfold normalize_strengths at hp
    rw [if_neg hne] at hp
    by_cases heq : listMax (s.map Prod.snd) = listMin (s.map Prod.snd)
    · rw [if_pos heq] at hp
      obtain ⟨q, hq, rfl⟩ := List.mem_map.mp hp
      norm_num
    · rw [if_neg heq] at hp
      obtain ⟨q, hq, rfl⟩ := List.mem_map.mp hp
      have hq2 : q.2 ∈ s.map Prod.snd := List.mem_map_of_mem _ hq
      have h1 := listMin_le _ _ hq2
      have h2 := le_listMax _ _ hq2
      have hlt : listMin (s.map Prod.snd) < listMax (s.map Prod.snd) :=
        lt_of_le_of_ne (le_trans h1 h2) (fun hmm => heq hmm.symm)
      exact scale_bounds q.2 _ _ h1 h2 hlt
  · intro p hp
    unfold ranking_normalize at hp
    rw [if_neg hne] at hp
    by_cases hlt : listMin ((s.map (fun p => (p.1, p.2 - meanVals s + 1/2))).map Prod.snd) <
        listMax ((s.map (fun p => (p.1, p.2 - meanVals s + 1/2))).map Prod.snd)
    · rw [if_pos hlt] at hp
      obtain ⟨q, hq, rfl⟩ := List.mem_map.mp hp
      have hq2 : q.2 ∈ (s.map (fun p => (p.1, p.2 - meanVals s + 1/2))).map Prod.snd :=
        List.mem_map_of_mem _ hq
      exact scale_bounds q.2 _ _ (listMin_le _ _ hq2) (le_listMax _ _ hq2) hlt
    · rw [if_neg hlt] at hp
      have hp2 : p.2 ∈ (s.map (fun p => (p.1, p.2 - meanVals s + 1/2))).map Prod.snd :=
        List.mem_map_of_mem _ hp
      have hminmax : listMin ((s.map (fun p => (p.1, p.2 - meanVals s + 1/2))).map Prod.snd) =
          listMax ((s.map (fun p => (p.1, p.2 - meanVals s + 1/2))).map Prod.snd) :=
        le_antisymm (le_trans (listMin_le _ _ hp2) (le_listMax _ _ hp2)) (not_lt.mp hlt)
      have hallv : ∀ x ∈ (s.map (fun p => (p.1, p.2 - meanVals s + 1/2))).map Prod.snd,
          x = listMin ((s.map (fun p => (p.1, p.2 - meanVals s + 1/2))).map Prod.snd) := by
        intro x hx
        have ha := listMin_le _ _ hx
        have hb := le_listMax _ _ hx
        rw [← hminmax] at hb
        linarith
      have hmapeq : (s.map (fun p => (p.1, p.2 - meanVals s + 1/2))).map Prod.snd =
          (s.map Prod.snd).map (fun v => v + (1/2 - meanVals s)) := by
        rw [List.map_map, List.map_map]
        have hfun : (fun (p : String × ℚ) => p.2 - meanVals s + 1/2) =
            (fun (p : String × ℚ) => p.2 + (1/2 - meanVals s)) := by
          funext p
          ring
        exact congrArg (fun f => List.map f s) hfun
      have hsum12 : ((s.map (fun p => (p.1, p.2 - meanVals s + 1/2))).map Prod.snd).sum =
          (s.length : ℚ) * (1/2) := by
        rw [hmapeq, sum_map_add_const, List.length_map]
        have hmv : meanVals s = (s.map Prod.snd).sum / s.length := rfl
        rw [hmv]
        have hsne : (s.length : ℚ) ≠ 0 := by
          have hq : (0:ℚ) < s.length := by exact_mod_cast hlenpos
          linarith
        field_simp
        ring
      have hsumv := sum_const_eq _ _ hallv
      have hlen2 : ((s.map (fun p => (p.1, p.2 - meanVals s + 1/2))).map Prod.snd).length =
          s.length := by
        rw [List.length_map, List.length_map]
      rw [hlen2] at hsumv
      rw [hsumv] at hsum12
      have hsne : (s.length : ℚ) ≠ 0 := by
        have : (0:ℚ) < s.length := by exact_mod_cast hlenpos
        linarith
      have hv12 : listMin ((s.map (fun p => (p.1, p.2 - meanVals s + 1/2))).map Prod.snd) =
          1/2 := by
        have := mul_left_cancel₀ hsne hsum12
        linarith [this]
      have := hallv p.2 hp2
      rw [hv12] at this
      rw [this]
      norm_num
  · intro c hc
    constructor
    · intro p hp
      unfold normalize_strengths at hp
      rw [if_neg hne] at hp
      have hallc : ∀ x ∈ s.map Prod.snd, x = c := by
        intro x hx
        obtain ⟨q, hq, rfl⟩ := List.mem_map.mp hx
        exact hc q hq
      have hmin := listMin_const c _ hmapne hallc
      have hmax := listMax_const c _ hmapne hallc
      rw [if_pos (by rw [hmin, hmax])] at hp
      obtain ⟨q, hq, rfl⟩ := List.mem_map.mp hp
      rfl
    · intro p hp
      unfold ranking_normalize at hp
      rw [if_neg hne] at hp
      have hallc : ∀ x ∈ s.map Prod.snd, x = c := by
        intro x hx
        obtain ⟨q, hq, rfl⟩ := List.mem_map.mp hx
        exact hc q hq
      have hsumc : (s.map Prod.snd).sum = (s.map Prod.snd).length * c :=
        sum_const_eq c _ hallc
      have hmeanc : meanVals s = c := by
        have hmv : meanVals s = (s.map Prod.snd).sum / s.length := rfl
        rw [hmv, hsumc, List.length_map]
        have hsne : (s.length : ℚ) ≠ 0 := by
          have : (0:ℚ) < s.length := by exact_mod_cast hlenpos
          linarith
        field_simp
      have hall12 : ∀ x ∈ (s.map (fun p => (p.1, p.2 - meanVals s + 1/2))).map Prod.snd,
          x = 1/2 := by
        intro x hx
        obtain ⟨q, hq, rfl⟩ := List.mem_map.mp hx
        obtain ⟨q', hq', rfl⟩ := List.mem_map.mp hq
        have := hc q' hq'
        show q'.2 - meanVals s + 1/2 = 1/2
        rw [this, hmeanc]
        ring
      have hshne : (s.map (fun p => (p.1, p.2 - meanVals s + 1/2))).map Prod.snd ≠ [] := by
        simpa using hne
      have hmin := listMin_const (1/2) _ hshne hall12
      have hmax := listMax_const (1/2) _ hshne hall12
      rw [if_neg (by rw [hmin, hmax]; exact lt_irrefl _)] at hp
      have hp2 : p.2 ∈ (s.map (fun p => (p.1, p.2 - meanVals s + 1/2))).map Prod.snd :=
        List.mem_map_of_mem _ hp
      exact hall12 p.2 hp2

/-- C1 counterexample: the dynamic normalization of raw strengths
`0, 0, 1` has mean 11/30 and the ranking normalization of raw strengths
`0, 0.1, 0.1, 0.1` (one last-place team, three default-strength teams) has
mean 7/10, both far from 1/2: the claimed near-1/2 mean is false. -/
theorem C1_counterexample :
    meanVals (normalize_strengths [("A", 0), ("B", 0), ("C", 1)]) = 11/30 ∧
    meanVals (ranking_normalize [("A", 0), ("B", 1/10), ("C", 1/10), ("D", 1/10)]) = 7/10 := by
  constructor
  · have h : normalize_strengths [("A", 0), ("B", 0), ("C", 1)] =
        [("A", 1/10), ("B", 1/10), ("C", 9/10)] := by
      unfold normalize_strengths
      rw [if_neg (by simp)]
      norm_num [listMin, listMax, List.foldl]
    rw [h]
    norm_num [meanVals]
  · have h : ranking_normalize [("A", 0), ("B", 1/10), ("C", 1/10), ("D", 1/10)] =
        [("A", 1/10), ("B", 9/10), ("C", 9/10), ("D", 9/10)] := by
      unfold ranking_normalize
      rw [if_neg (by simp)]
      norm_num [meanVals, listMin, listMax, List.foldl]
    rw [h]
    norm_num [meanVals]

/-- Witness for C1 (amended): the first entry of the normalized two-team
mapping with raw strengths 0 and 1 lies inside [0.1, 0.9]. -/
theorem C1_normalization_bounds_witness :
    (1/10 : ℚ) ≤ (("A", (1/10 : ℚ)) : String × ℚ).2 ∧
      (("A", (1/10 : ℚ)) : String × ℚ).2 ≤ 9/10 := by
  have h : normalize_strengths [("A", 0), ("B", 1)] = [("A", 1/10), ("B", 9/10)] := by
    unfold normalize_strengths
    rw [if_neg (by simp)]
    norm_num [listMin, listMax, List.foldl]
  exact (C1_normalization_bounds [("A", 0), ("B", 1)] (by decide)).1 ("A", 1/10)
    (by rw [h]; simp)

/-- C2 (amended): with no strength data the simulator passes the global
rates through unchanged and the category is drawn with probabilities
exactly `(ph, pd, pa)` — the three branch masses are `ph`, `pd` and `pa` —
but the scoreline drawn inside a win branch is the 1-1 draw with
conditional probability 3/25, so the returned scoreline is a home win with
probability `(22/25) ph`, a draw with probability `pd + (3/25)(ph + pa)`,
and an away win with probability `(22/25) pa`. -/
theorem C2_scoreline_probabilities (ph pdr pa : ℚ)
    (h0 : 0 ≤ ph) (h1 : 0 ≤ pdr) (h2 : 0 ≤ pa) (hsum : ph + pdr + pa = 1) :
    (∀ (gph gpd gpa : ℝ) (home away : String),
      calculate_match_probabilities [] home away gph gpd gpa = (gph, gpd, gpa)) ∧
    (((goalsProduct homeWinHomeGoals homeWinAwayGoals).map
        (fun s => (s.1, ph * s.2))).map Prod.snd).sum = ph ∧
    ((drawGoalsDist.map (fun g => ((g.1, g.1), pdr * g.2))).map Prod.snd).sum = pdr ∧
    (((goalsProduct homeWinAwayGoals homeWinHomeGoals).map
        (fun s => (s.1, (1 - ph - pdr) * s.2))).map Prod.snd).sum = pa ∧
    probOf isHomeWinScore (scorelineDist ph pdr) = 22/25 * ph ∧
    probOf isDrawScore (scorelineDist ph pdr) = pdr + 3/25 * (ph + pa) ∧
    probOf isAwayWinScore (scorelineDist ph pdr) = 22/25 * pa := by
  have hpa : pa = 1 - ph - pdr := by linarith
  subst hpa
  refine ⟨?_, ?_, ?_, ?_, ?_, ?_, ?_⟩
  · intro gph gpd gpa home away
    unfold calculate_match_probabilities
    rw [if_pos rfl]
  all_goals
    simp only [scorelineDist, goalsProduct, probOf, isHomeWinScore, isDrawScore,
      isAwayWinScore, homeWinHomeGoals, homeWinAwayGoals, drawGoalsDist,
      List.bind_eq_flatMap, List.flatMap_cons, List.flatMap_nil, List.map_cons,
      List.map_nil, List.append_nil, List.nil_append, List.cons_append,
      List.filter_cons, List.filter_nil, List.sum_cons, List.sum_nil]
  all_goals norm_num
  all_goals ring

/-- C2 counterexample: with no strength data and base rates (1, 0, 0) the
category drawn is always the home-win branch, yet the returned scoreline is
a strict home win only with probability 22/25, and is the 1-1 draw with
probability 3/25 — not a home win with probability exactly 1 as claimed. -/
theorem C2_counterexample :
    calculate_match_probabilities [] "H" "A" 1 0 0 = (1, 0, 0) ∧
    probOf isHomeWinScore (scorelineDist 1 0) = 22/25 ∧
    probOf isDrawScore (scorelineDist 1 0) = 3/25 ∧
    (22/25 : ℚ) ≠ 1 := by
  refine ⟨?_, ?_, ?_, by norm_num⟩
  · unfold calculate_match_probabilities
    rw [if_pos rfl]
  · norm_num [scorelineDist, goalsProduct, probOf, isHomeWinScore,
      homeWinHomeGoals, homeWinAwayGoals, drawGoalsDist, List.filter]
  · norm_num [scorelineDist, goalsProduct, probOf, isDrawScore,
      homeWinHomeGoals, homeWinAwayGoals, drawGoalsDist, List.filter]

/-- Witness for C2 (amended) at base rates (1/2, 1/4, 1/4). -/
theorem C2_scoreline_probabilities_witness :
    probOf isHomeWinScore (scorelineDist (1/2) (1/4)) = 22/25 * (1/2) :=
  (C2_scoreline_probabilities (1/2) (1/4) (1/4) (by norm_num) (by norm_num)
    (by norm_num) (by norm_num)).2.2.2.2.1

/-- C5 (amended): per fixture the vectorized shortcut realizes win, draw
and loss with probabilities exactly `(ph, pd, pa)` through the decisive
scorelines 2-0, 1-1 and 0-2, while the per-match sampling path realizes a
home-win scoreline with probability `(22/25) ph` and an away win with
`(22/25) pa`; the two paths induce the same win/draw/loss distribution only
in the degenerate case `ph = 0` (respectively `pa = 0`), so their imbalance
curves do not share one distribution in general. -/
theorem C5_vectorized_vs_sampling (ph pdr pa : ℚ)
    (h0 : 0 ≤ ph) (h1 : 0 ≤ pdr) (h2 : 0 ≤ pa) (hsum : ph + pdr + pa = 1) :
    probOf isHomeWinScore (vectorizedScorelineDist ph pdr) = ph ∧
    probOf isDrawScore (vectorizedScorelineDist ph pdr) = pdr ∧
    probOf isAwayWinScore (vectorizedScorelineDist ph pdr) = pa ∧
    (probOf isHomeWinScore (vectorizedScorelineDist ph pdr) =
      probOf isHomeWinScore (scorelineDist ph pdr) ↔ ph = 0) ∧
    (probOf isAwayWinScore (vectorizedScorelineDist ph pdr) =
      probOf isAwayWinScore (scorelineDist ph pdr) ↔ pa = 0) := by
  have hpa : pa = 1 - ph - pdr := by linarith
  subst hpa
  have hv1 : probOf isHomeWinScore (vectorizedScorelineDist ph pdr) = ph := by
    norm_num [vectorizedScorelineDist, probOf, isHomeWinScore, List.filter]
  have hv2 : probOf isDrawScore (vectorizedScorelineDist ph pdr) = pdr := by
    norm_num [vectorizedScorelineDist, probOf, isDrawScore, List.filter]
  have hv3 : probOf isAwayWinScore (vectorizedScorelineDist ph pdr) = 1 - ph - pdr := by
    norm_num [vectorizedScorelineDist, probOf, isAwayWinScore, List.filter]
  have hs1 : probOf isHomeWinScore (scorelineDist ph pdr) = 22/25 * ph :=
    (C2_scoreline_probabilities ph pdr (1 - ph - pdr) h0 h1 (by linarith)
      (by ring)).2.2.2.2.1
  have hs3 : probOf isAwayWinScore (scorelineDist ph pdr) = 22/25 * (1 - ph - pdr) :=
    (C2_scoreline_probabilities ph pdr (1 - ph - pdr) h0 h1 (by linarith)
      (by ring)).2.2.2.2.2.2
  refine ⟨hv1, hv2, hv3, ?_, ?_⟩
  · rw [hv1, hs1]
    constructor
    · intro h
      linarith
    · intro h
      rw [h]
      ring
  · rw [hv3, hs3]
    constructor
    · intro h
      linarith
    · intro h
      rw [show (1 : ℚ) - ph - pdr = 0 from h]
      ring

/-- Witness for C5 (amended) at base rates (1/2, 1/4, 1/4). -/
theorem C5_vectorized_vs_sampling_witness :
    probOf isHomeWinScore (vectorizedScorelineDist (1/2) (1/4)) = 1/2 :=
  (C5_vectorized_vs_sampling (1/2) (1/4) (1/4) (by norm_num) (by norm_num)
    (by norm_num) (by norm_num)).1

theorem sigmoid_gt_half (x : ℝ) (hx : 0 < x) : 1/2 < sigmoid x := by
  unfold sigmoid
  have hp : 0 < Real.exp (-(3 * x)) := Real.exp_pos _
  have he : Real.exp (-(3 * x)) < 1 := by
    rw [Real.exp_lt_one_iff]
    linarith
  rw [lt_div_iff (by linarith)]
  linarith

theorem sigmoid_lt_one (x : ℝ) : sigmoid x < 1 := by
  unfold sigmoid
  have hp : 0 < Real.exp (-(3 * x)) := Real.exp_pos _
  rw [div_lt_one (by linarith)]
  linarith

/-- C7 (amended): when the games table contains no matches for the given
championship id, the dynamic strength calculator returns the mapping
assigning 1/2 to every roster team — for a non-empty roster a non-empty
mapping — while the simulator falls back to the global base rates exactly
when the mapping it holds is empty. -/
theorem C7_no_data_constant_mapping (games : List Game) (teams_list : List String)
    (championship_id : String) (current_round : Option Nat)
    (hempty : games.filter (fun g => decide (g.id = championship_id)) = []) :
    calculate_dynamic_strengths games teams_list championship_id current_round =
      teams_list.map (fun t => (t, 1/2)) ∧
    (teams_list ≠ [] →
      calculate_dynamic_strengths games teams_list championship_id current_round ≠ []) ∧
    (∀ (ts : List (String × ℝ)) (home away : String) (gph gpd gpa : ℝ),
      ts = [] →
      calculate_match_probabilities ts home away gph gpd gpa = (gph, gpd, gpa)) := by
  have hmain : calculate_dynamic_strengths games teams_list championship_id current_round =
      teams_list.map (fun t => (t, 1/2)) := by
    unfold calculate_dynamic_strengths
    rw [hempty]
    rw [if_pos rfl]
  refine ⟨hmain, ?_, ?_⟩
  · intro hne
    rw [hmain]
    simpa using hne
  · intro ts home away gph gpd gpa hts
    subst hts
    unfold calculate_match_probabilities
    rw [if_pos rfl]

/-- C7 counterexample: with an empty games table the dynamic calculator
returns the constant-1/2 mapping on the roster [A, B] — not the empty
mapping — and feeding that mapping to the simulator with base rates
(1/2, 1/4, 1/4) produces a home-win probability strictly above 1/2: the
global base rates are not used downstream. -/
theorem C7_counterexample :
    calculate_dynamic_strengths [] ["A", "B"] "X" none = [("A", 1/2), ("B", 1/2)] ∧
    calculate_dynamic_strengths [] ["A", "B"] "X" none ≠ [] ∧
    (1/2 : ℝ) < (calculate_match_probabilities
      ((calculate_dynamic_strengths [] ["A", "B"] "X" none).map
        (fun p => (p.1, (p.2 : ℝ)))) "A" "B" (1/2) (1/4) (1/4)).1 := by
  have h1 : calculate_dynamic_strengths [] ["A", "B"] "X" none =
      [("A", 1/2), ("B", 1/2)] := by
    unfold calculate_dynamic_strengths
    simp only [List.filter_nil]
    rw [if_pos trivial]
    rfl
  have hne : calculate_dynamic_strengths [] ["A", "B"] "X" none ≠ [] := by
    rw [h1]
    simp
  have hts : (calculate_dynamic_strengths [] ["A", "B"] "X" none).map
      (fun p => (p.1, (p.2 : ℝ))) = [("A", (1/2 : ℝ)), ("B", (1/2 : ℝ))] := by
    rw [h1]
    norm_num
  refine ⟨h1, hne, ?_⟩
  rw [hts]
  have hA : lookupStrength [("A", (1/2:ℝ)), ("B", (1/2:ℝ))] "A" = 1/2 := by
    simp [lookupStrength, List.find?]
  have hB : lookupStrength [("A", (1/2:ℝ)), ("B", (1/2:ℝ))] "B" = 1/2 := by
    simp [lookupStrength, List.find?]
  simp only [calculate_match_probabilities]
  rw [if_neg (by simp)]
  rw [hA, hB]
  have hmin : min (19/20 : ℝ) (1/2 + 1/10) = 3/5 := by
    rw [min_def]
    norm_num
  rw [hmin]
  have hdiff : (3/5 : ℝ) - 1/2 = 1/10 := by norm_num
  rw [hdiff]
  have hsig := sigmoid_gt_half (1/10) (by norm_num)
  have hrem : (0:ℝ) < (1/4 : ℝ) + 1/4 := by norm_num
  rw [if_pos hrem, if_pos hrem]
  set s := sigmoid (1/10) with hs
  have htot : (7/10 : ℝ) * s + 3/10 * (1/2) +
      (1 - (7/10 * s + 3/10 * (1/2))) * (1/4 / (1/4 + 1/4)) +
      (1 - (7/10 * s + 3/10 * (1/2))) * (1/4 / (1/4 + 1/4)) = 1 := by
    field_simp
    ring
  rw [if_pos (by rw [htot]; norm_num)]
  simp only [htot, div_one]
  linarith

/-- C8: `validate_dataframe` fails exactly when some required match column
is entirely absent; otherwise it returns, non-fatally, the rows from which
exactly those with an unparseable round or goal value or a negative goal
value have been dropped, so every surviving row has a parsed round and
non-negative parsed goals. -/
theorem C8_validate_dataframe (df : RawTable) :
    ((∃ e, validate_dataframe df = Except.error e) ↔
      ∃ c ∈ requiredMatchColumns, c ∉ df.cols) ∧
    (∀ out, validate_dataframe df = Except.ok out →
      (∀ r, r ∈ out ↔ r ∈ df.rows ∧ rowParsed r = true ∧ rowNegGoals r = false) ∧
      (∀ r ∈ out, r.rodada.isSome = true ∧
        (∃ gh, r.goal_home = some gh ∧ 0 ≤ gh) ∧
        (∃ ga, r.goal_away = some ga ∧ 0 ≤ ga))) := by
  by_cases hcols : requiredMatchColumns.all (fun c => df.cols.contains c) = true
  · have hform : validate_dataframe df = Except.ok
        (if (df.rows.filter rowParsed).filter rowNegGoals = []
          then df.rows.filter rowParsed
          else (df.rows.filter rowParsed).filter (fun r => !(rowNegGoals r))) := by
      unfold validate_dataframe
      rw [if_pos hcols]
    constructor
    · constructor
      · intro ⟨e, he⟩
        rw [hform] at he
        exact absurd he (by simp)
      · intro ⟨c, hc, hnc⟩
        exfalso
        have := List.all_eq_true.mp hcols c hc
        exact hnc (List.elem_iff.mp this)
    · intro out hout
      rw [hform] at hout
      have hout' := (Except.ok.injEq _ _).mp hout.symm
      have hmem : ∀ r, r ∈ out ↔ r ∈ df.rows ∧ rowParsed r = true ∧
          rowNegGoals r = false := by
        intro r
        rw [hout']
        by_cases hinv : (df.rows.filter rowParsed).filter rowNegGoals = []
        · rw [if_pos hinv]
          constructor
          · intro hr
            obtain ⟨hr1, hr2⟩ := List.mem_filter.mp hr
            refine ⟨hr1, hr2, ?_⟩
            have := List.filter_eq_nil_iff.mp hinv r (List.mem_filter.mpr ⟨hr1, hr2⟩)
            simpa using this
          · intro ⟨hr1, hr2, _⟩
            exact List.mem_filter.mpr ⟨hr1, hr2⟩
        · rw [if_neg hinv]
          constructor
          · intro hr
            obtain ⟨hr0, hr3⟩ := List.mem_filter.mp hr
            obtain ⟨hr1, hr2⟩ := List.mem_filter.mp hr0
            refine ⟨hr1, hr2, ?_⟩
            simpa using hr3
          · intro ⟨hr1, hr2, hr3⟩
            exact List.mem_filter.mpr ⟨List.mem_filter.mpr ⟨hr1, hr2⟩, by simpa using hr3⟩
      refine ⟨hmem, ?_⟩
      intro r hr
      obtain ⟨_, hparsed, hneg⟩ := (hmem r).mp hr
      unfold rowParsed at hparsed
      rw [Bool.and_eq_true, Bool.and_eq_true] at hparsed
      obtain ⟨⟨hgh, hga⟩, hrod⟩ := hparsed
      unfold rowNegGoals at hneg
      rw [Bool.or_eq_false_iff] at hneg
      obtain ⟨hngh, hnga⟩ := hneg
      refine ⟨hrod, ?_, ?_⟩
      · obtain ⟨gh, hgh'⟩ := Option.isSome_iff_exists.mp hgh
        refine ⟨gh, hgh', ?_⟩
        rw [decide_eq_false_iff_not] at hngh
        rw [hgh'] at hngh
        simpa using hngh
      · obtain ⟨ga, hga'⟩ := Option.isSome_iff_exists.mp hga
        refine ⟨ga, hga', ?_⟩
        rw [decide_eq_false_iff_not] at hnga
        rw [hga'] at hnga
        simpa using hnga
  · have hform : validate_dataframe df = Except.error "Colunas obrigatorias ausentes" := by
      unfold validate_dataframe
      rw [if_neg hcols]
    constructor
    · constructor
      · intro _
        have hne2 : ∃ c ∈ requiredMatchColumns, df.cols.contains c ≠ true := by
          rw [List.all_eq_true] at hcols
          push_neg at hcols
          exact hcols
        obtain ⟨c, hc, hnc⟩ := hne2
        refine ⟨c, hc, ?_⟩
        intro hmem
        exact hnc (List.elem_iff.mpr hmem)
      · intro _
        exact ⟨_, hform⟩
    · intro out hout
      rw [hform] at hout
      exact absurd hout (by simp)

/-- Witness for C8 on `sampleRawTable`: only the clean row survives, and
its survival is characterized exactly by parseability and non-negative
goals. -/
theorem C8_validate_dataframe_witness :
    ∀ r, r ∈ [(⟨"X", some 1, "A", "B", some 2, some 0⟩ : RawRow)] ↔
      r ∈ sampleRawTable.rows ∧ rowParsed r = true ∧ rowNegGoals r = false :=
  ((C8_validate_dataframe sampleRawTable).2
    [⟨"X", some 1, "A", "B", some 2, some 0⟩] (by rfl)).1

/-- Population variance of a two-tier list in closed form. -/
theorem listVar_two_tier (D W : Nat) (d w : ℚ) (hD : 0 < D) (hW : 0 < W) :
    listVar (List.replicate D d ++ List.replicate W w) =
      ((D : ℚ) * W * (d - w)^2) / (((D : ℚ) + W)^2) := by
  unfold listVar
  rw [List.length_append, List.length_replicate, List.length_replicate]
  rw [List.map_append, List.map_replicate, List.map_replicate]
  rw [List.sum_append, List.sum_append, List.sum_replicate, List.sum_replicate,
    List.sum_replicate, List.sum_replicate]
  simp only [nsmul_eq_mul]
  have hDq : (0:ℚ) < D := by exact_mod_cast hD
  have hWq : (0:ℚ) < W := by exact_mod_cast hW
  have hDW : ((D : ℚ) + W) ≠ 0 := by positivity
  push_cast
  field_simp
  ring

/-- C4 (amended): for every team count `N ≥ 2` and every round, the
denominator used to normalize the imbalance equals the population variance
of the two-tier distribution with `D = max 1 (⌊0.2 N⌋)` dominant teams each
holding `⌊⌊0.8 T⌋ / D⌋` points and the remaining `W = N - D` teams each
holding `⌊⌊0.2 T⌋ / W⌋` points, where `T = ⌊3 r N / 2⌋` — in closed form
`D W (d - w)^2 / N^2`; and the normalized imbalance value is 0 whenever
fewer than two data points are available (in particular when `N ≤ 1`). -/
theorem C4_theoretical_max_variance (num_teams round_num : Nat)
    (hN : 2 ≤ num_teams) :
    theoretical_max_variance num_teams round_num =
      ((max 1 (num_teams / 5) : Nat) : ℚ) *
        (((num_teams - max 1 (num_teams / 5) : Nat) : ℚ)) *
        ((((4 * (round_num * 3 * num_teams / 2) / 5 / max 1 (num_teams / 5) : Nat) : ℚ) -
          (((round_num * 3 * num_teams / 2) / 5 /
            (num_teams - max 1 (num_teams / 5)) : Nat) : ℚ)) ^ 2) /
        ((num_teams : ℚ) ^ 2) ∧
    (∀ (points_round : List ℚ) (nt rn : Nat), points_round.length ≤ 1 →
      normalizedVariance points_round nt rn = 0) := by
  constructor
  · have hD1 : 1 ≤ max 1 (num_teams / 5) := le_max_left _ _
    have hDlt : max 1 (num_teams / 5) < num_teams := by
      have h5 : num_teams / 5 < num_teams := Nat.div_lt_self (by omega) (by omega)
      omega
    have hW1 : 1 ≤ num_teams - max 1 (num_teams / 5) := by omega
    unfold theoretical_max_variance
    rw [if_neg (by omega)]
    show listVar (List.replicate (max 1 (num_teams / 5))
        (((4 * (round_num * 3 * num_teams / 2) / 5 / max 1 (num_teams / 5) : Nat)) : ℚ) ++
      List.replicate (num_teams - max 1 (num_teams / 5))
        (((if 0 < num_teams - max 1 (num_teams / 5)
          then (round_num * 3 * num_teams / 2) / 5 / (num_teams - max 1 (num_teams / 5))
          else 0 : Nat)) : ℚ)) = _
    rw [if_pos (by omega)]
    rw [listVar_two_tier _ _ _ _ (by omega) (by omega)]
    have hsum : ((max 1 (num_teams / 5) : Nat) : ℚ) +
        ((num_teams - max 1 (num_teams / 5) : Nat) : ℚ) = (num_teams : ℚ) := by
      rw [← Nat.cast_add]
      congr 1
      omega
    rw [hsum]
  · intro points_round nt rn hlen
    unfold normalizedVariance
    rw [if_neg (by omega)]

/-- C4 counterexample: at `N = 2, r = 1` the code denominator is the
variance of the integer-floored distribution `[2, 0]`, namely 1, while the
distribution described by the claim (top `⌈0.2 N⌉` teams holding exactly
80% of `T = 3`) is `[2.4, 0.6]` with variance 81/100; at `N = 18, r = 1`
even the dominant-tier sizes differ (floor gives 3 teams, the claimed
ceiling gives 4), with denominators 245/36 versus 1521/350. -/
theorem C4_counterexample :
    theoretical_max_variance 2 1 = 1 ∧
    specTwoTierVariance 2 1 = 81/100 ∧
    (1 : ℚ) ≠ 81/100 ∧
    theoretical_max_variance 18 1 = 245/36 ∧
    specTwoTierVariance 18 1 = 1521/350 := by
  refine ⟨?_, ?_, by norm_num, ?_, ?_⟩ <;>
    norm_num [theoretical_max_variance, specTwoTierVariance, listVar, List.replicate]

/-- Witness for C4 (amended) at `N = 2, r = 1`: the closed form evaluates
to the code denominator 1. -/
theorem C4_theoretical_max_variance_witness : theoretical_max_variance 2 1 = 1 := by
  have h := (C4_theoretical_max_variance 2 1 (by omega)).1
  rw [h]
  norm_num

theorem find_range'_eq_some (p : Nat → Bool) :
    ∀ (n s m : Nat), ((List.range' s n).find? p = some m ↔
      (s ≤ m ∧ m < s + n ∧ p m = true ∧ ∀ j, s ≤ j → j < m → p j = false)) := by
  intro n
  induction n with
  | zero =>
    intro s m
    simp only [List.range']
    constructor
    · intro h
      simp at h
    · intro ⟨h1, h2, _, _⟩
      omega
  | succ n ih =>
    intro s m
    show ((s :: List.range' (s + 1) n).find? p = some m ↔ _)
    by_cases hps : p s = true
    · rw [List.find?_cons_of_pos _ hps]
      constructor
      · intro h
        have hm : s = m := by
          simpa using h
        subst hm
        exact ⟨le_rfl, by omega, hps, fun j h1 h2 => absurd (by omega : s ≤ j ∧ j < s) (by omega)⟩
      · intro ⟨h1, h2, h3, h4⟩
        have hm : m = s := by
          by_contra hne
          have hsm : s < m := by omega
          have := h4 s le_rfl hsm
          rw [hps] at this
          exact absurd this (by simp)
        subst hm
        rfl
    · rw [List.find?_cons_of_neg _ (by simpa using hps)]
      rw [ih (s + 1) m]
      constructor
      · intro ⟨h1, h2, h3, h4⟩
        refine ⟨by omega, by omega, h3, ?_⟩
        intro j hj1 hj2
        rcases Nat.eq_or_lt_of_le hj1 with rfl | hlt
        · simpa using hps
        · exact h4 j (by omega) hj2
      · intro ⟨h1, h2, h3, h4⟩
        have hms : m ≠ s := by
          intro hh
          subst hh
          exact hps h3
        exact ⟨by omega, by omega, h3, fun j hj1 hj2 => h4 j (by omega) hj2⟩

theorem find_range'_eq_none (p : Nat → Bool) (n s : Nat) :
    ((List.range' s n).find? p = none ↔ ∀ j, s ≤ j → j < s + n → p j = false) := by
  rw [List.find?_eq_none]
  constructor
  · intro h j h1 h2
    have := h j (List.mem_range'_1.mpr ⟨h1, h2⟩)
    simpa using this
  · intro h x hx
    have := List.mem_range'_1.mp hx
    simp only [Bool.not_eq_true]
    exact h x this.1 this.2

theorem takeWhile_range'_all (p : Nat → Bool) :
    ∀ (k s : Nat), (k ≤ ((List.range' s k).takeWhile p).length ↔
      ∀ j, s ≤ j → j < s + k → p j = true) := by
  intro k
  induction k with
  | zero =>
    intro s
    simp only [List.range']
    constructor
    · intro _ j h1 h2
      omega
    · intro _
      simp
  | succ k ih =>
    intro s
    show (k + 1 ≤ ((s :: List.range' (s + 1) k).takeWhile p).length ↔ _)
    by_cases hps : p s = true
    · rw [List.takeWhile_cons_of_pos hps]
      simp only [List.length_cons, Nat.add_le_add_iff_right]
      rw [ih (s + 1)]
      constructor
      · intro h j h1 h2
        rcases Nat.eq_or_lt_of_le h1 with rfl | hlt
        · exact hps
        · exact h j (by omega) (by omega)
      · intro h j h1 h2
        exact h j (by omega) (by omega)
    · rw [List.takeWhile_cons_of_neg (by simpa using hps)]
      simp only [List.length_nil]
      constructor
      · intro h
        omega
      · intro h
        exact absurd (h s le_rfl (by omega)) hps

/-- The candidate condition of the turning-point scan, spelled out: above
the envelope at the index, above on the `k` consecutive rounds from it, and
the remaining-rounds fraction at or above the threshold. -/
theorem tpCond_iff (observed envelope : List ℚ) (k : Nat) (thr : ℚ) (idx : Nat) :
    tpCond observed envelope k thr idx = true ↔
      (envelope.getD idx 0 < observed.getD idx 0 ∧
       (∀ j, j < k → envelope.getD (idx + j) 0 < observed.getD (idx + j) 0) ∧
       thr ≤ (((List.range (observed.length - idx)).countP (fun j =>
         decide (envelope.getD (idx + j) 0 < observed.getD (idx + j) 0))) : ℚ) /
           (((observed.length - idx : Nat)) : ℚ)) := by
  unfold tpCond
  rw [Bool.and_eq_true, Bool.and_eq_true]
  rw [decide_eq_true_eq, decide_eq_true_eq, decide_eq_true_eq]
  constructor
  · intro ⟨h1, h2, h3⟩
    refine ⟨h1, ?_, h3⟩
    intro j hj
    have := (takeWhile_range'_all _ k 0).mp (by rw [← List.range_eq_range']; exact h2)
    exact of_decide_eq_true (this j (by omega) (by omega))
  · intro ⟨h1, h2, h3⟩
    refine ⟨h1, ?_, h3⟩
    rw [List.range_eq_range']
    exact (takeWhile_range'_all _ k 0).mpr
      (fun j _ hj => decide_eq_true (h2 j (by omega)))

/-- C3 (amended): `find_turning_point` makes a single left-to-right pass
over the 0-based indices `0 .. len - k - 1` with `k = max 3 (⌊0.1 R⌋)` —
the source truncates `0.1 R`, it does not round it — and returns, as
`(round, round / R)`, the first index whose observed value exceeds the
envelope, whose `k` consecutive rounds are all above the envelope, and
whose remaining-round fraction above the envelope reaches the threshold
(3/4 when strength data informed the simulation, 7/10 otherwise); it
reports no turning point exactly when no index qualifies. -/
theorem C3_find_turning_point (observed envelope : List ℚ) (R : Nat) (flag : Bool) :
    (∀ t q, find_turning_point observed envelope R flag = some (t, q) ↔
      ∃ idx, t = idx + 1 ∧ q = ((idx + 1 : Nat) : ℚ) / (R : ℚ) ∧
        idx < observed.length - max 3 (R / 10) ∧
        tpCond observed envelope (max 3 (R / 10))
          (if flag then (3/4 : ℚ) else 7/10) idx = true ∧
        (∀ j, j < idx → tpCond observed envelope (max 3 (R / 10))
          (if flag then (3/4 : ℚ) else 7/10) j = false)) ∧
    (find_turning_point observed envelope R flag = none ↔
      ∀ idx, idx < observed.length - max 3 (R / 10) →
        tpCond observed envelope (max 3 (R / 10))
          (if flag then (3/4 : ℚ) else 7/10) idx = false) := by
  constructor
  · intro t q
    unfold find_turning_point
    rcases hfind : (List.range (observed.length - max 3 (R / 10))).find?
        (tpCond observed envelope (max 3 (R / 10))
          (if flag then (3/4 : ℚ) else 7/10)) with _ | idx0
    · simp only [hfind]
      constructor
      · intro h
        simp at h
      · intro ⟨idx, _, _, hlt, hcond, _⟩
        rw [List.range_eq_range'] at hfind
        have := (find_range'_eq_none _ _ _).mp hfind idx (by omega) (by omega)
        rw [hcond] at this
        exact absurd this (by simp)
    · simp only [hfind]
      rw [List.range_eq_range'] at hfind
      obtain ⟨_, hlt, hcond, hfirst⟩ := (find_range'_eq_some _ _ _ _).mp hfind
      constructor
      · intro h
        have ht : t = idx0 + 1 ∧ q = ((idx0 + 1 : Nat) : ℚ) / (R : ℚ) := by
          constructor
          · exact congrArg Prod.fst (Option.some_inj.mp h).symm
          · exact congrArg Prod.snd (Option.some_inj.mp h).symm
        exact ⟨idx0, ht.1, ht.2, by omega, hcond, fun j hj => hfirst j (by omega) hj⟩
      · intro ⟨idx, h1, h2, h3, h4, h5⟩
        have : idx = idx0 := by
          by_cases hc : idx < idx0
          · exact absurd h4 (by rw [hfirst idx (by omega) hc]; simp)
          · by_cases hc2 : idx0 < idx
            · exact absurd hcond (by rw [h5 idx0 hc2]; simp)
            · omega
        subst this
        rw [h1, h2]
  · unfold find_turning_point
    rcases hfind : (List.range (observed.length - max 3 (R / 10))).find?
        (tpCond observed envelope (max 3 (R / 10))
          (if flag then (3/4 : ℚ) else 7/10)) with _ | idx0
    · simp only [hfind]
      rw [List.range_eq_range'] at hfind
      constructor
      · intro _ idx hidx
        exact (find_range'_eq_none _ _ _).mp hfind idx (by omega) (by omega)
      · intro _
        trivial
    · simp only [hfind]
      rw [List.range_eq_range'] at hfind
      obtain ⟨_, hlt, hcond, _⟩ := (find_range'_eq_some _ _ _ _).mp hfind
      constructor
      · intro h
        simp at h
      · intro h
        have := h idx0 (by omega)
        rw [hcond] at this
        exact absurd this (by simp)

/-- Witness for C3 (amended): the none-case characterization applied to
the concrete 35-round curves. -/
theorem C3_find_turning_point_witness :
    find_turning_point tpObserved tpEnvelope 35 false = none ↔
      ∀ idx, idx < tpObserved.length - max 3 (35 / 10) →
        tpCond tpObserved tpEnvelope (max 3 (35 / 10))
          (if false then (3/4 : ℚ) else 7/10) idx = false :=
  (C3_find_turning_point tpObserved tpEnvelope 35 false).2

/-- C3 counterexample: over the 35-round curves `tpObserved` and
`tpEnvelope` the source scan, whose window is
`k = max 3 (int(0.1 * 35)) = 3`, reports the turning point `(1, 1/35)`,
while the scan the claim describes, with `k = max 3 (round(0.1 * 35)) = 4`,
finds no turning point at all: no four consecutive rounds lie above the
envelope. -/
theorem C3_counterexample :
    find_turning_point tpObserved tpEnvelope 35 false = some (1, 1/35) ∧
    find_turning_point_spec tpObserved tpEnvelope 35 false = none := by
  constructor
  · have hsome : (List.range (tpObserved.length - max 3 (35 / 10))).find?
        (tpCond tpObserved tpEnvelope (max 3 (35 / 10)) (7/10)) = some 0 := by
      rw [List.range_eq_range']
      rw [find_range'_eq_some]
      refine ⟨le_rfl, by decide, ?_, ?_⟩
      · rw [tpCond_iff]
        refine ⟨by decide, ?_, ?_⟩
        · intro j hj
          have hj3 : j < 3 := by
            have : max 3 (35 / 10) = 3 := by norm_num
            omega
          interval_cases j <;> decide
        · have hcount : ((List.range (tpObserved.length - 0)).countP (fun j =>
              decide (tpEnvelope.getD (0 + j) 0 < tpObserved.getD (0 + j) 0))) = 27 := by
            decide
          rw [hcount]
          have hlen : tpObserved.length = 35 := by decide
          rw [hlen]
          norm_num
      · intro j h1 h2
        omega
    simp only [find_turning_point, Bool.false_eq_true, if_false, hsome]
    simp only [Option.some_inj, Prod.mk.injEq]
    norm_num
  · decide

/-- Witness for C7 (amended): empty games table and roster [A, B]. -/
theorem C7_no_data_constant_mapping_witness :
    calculate_dynamic_strengths [] ["A", "B"] "X" none =
      ["A", "B"].map (fun t => (t, 1/2)) :=
  (C7_no_data_constant_mapping [] ["A", "B"] "X" none rfl).1

/-- C5 counterexample: over a one-match fixture with base rates (1, 0, 0)
the vectorized path always writes the 2-0 scoreline, so its imbalance value
is 0 with probability 0, while the per-match sampling path emits the 1-1
draw — imbalance value 0 — with probability 3/25: the two simulation paths
do not induce the same distribution on imbalance curves. -/
theorem C5_counterexample :
    probOf (fun s => decide (onematchCurve s = 0)) (vectorizedScorelineDist 1 0) = 0 ∧
    probOf (fun s => decide (onematchCurve s = 0)) (scorelineDist 1 0) = 3/25 ∧
    (0 : ℚ) ≠ 3/25 := by
  have hcurve : ∀ a b : Nat, onematchCurve (a, b) = if a = b then 0 else 9/4 := by
    intro a b
    unfold onematchCurve
    unfold winPoints
    by_cases hab : a = b
    · subst hab
      rw [if_pos rfl]
      norm_num [normalizedVariance, listVar, theoretical_max_variance, List.replicate]
    · conv_rhs => rw [if_neg hab]
      rcases Nat.lt_or_ge a b with h | h
      · rw [if_neg (by omega : ¬ a > b), if_neg hab, if_pos (show b > a from h)]
        norm_num [normalizedVariance, listVar, theoretical_max_variance, List.replicate]
      · have h1 : a > b := by omega
        rw [if_pos h1, if_neg (by omega : ¬ b > a), if_neg (by omega : ¬ b = a)]
        norm_num [normalizedVariance, listVar, theoretical_max_variance, List.replicate]
  refine ⟨?_, ?_, by norm_num⟩
  · norm_num [probOf, vectorizedScorelineDist, List.filter, hcurve]
  · norm_num [probOf, scorelineDist, goalsProduct, homeWinHomeGoals,
      homeWinAwayGoals, drawGoalsDist, List.filter, hcurve]

end Compet
